import Mathlib

set_option maxHeartbeats 2000000

/-!
# Verification of the SQL query merge tool

Shallow embedding of the core text-scanning functions of
`src/components/sql-merge-tool.tsx` (the quote-tracked placeholder counter,
the merger with its value escaper, the quote-preserving minifier and the
syntax highlighter), together with theorems settling the specification
claims about them.

Texts are modelled as `List Char` (JavaScript strings at the granularity the
source manipulates them: per-character indexing with one-character
lookahead, where `sql[i+1]` is `undefined` past the end — modelled by the
list being exhausted).
-/

/-- The back-tick character (written via its code point so that the source
file itself contains no back-tick). -/
def backtickChar : Char := Char.ofNat 96

/-- The character class of the JavaScript regular expression `\s` as used by
the minifier, and the set trimmed by `String.prototype.trim`, restricted to
the ASCII range the tool manipulates. -/
def jsWhitespace (c : Char) : Bool :=
  c == ' ' || c == '\t' || c == '\n' || c == '\r' || c == '\x0b' || c == '\x0c'

/-- `ParameterValue` (spec §3): the tagged union of values the merge tool
substitutes.  `null` covers JavaScript `null` and `undefined`; `num` is the
finite-number variant carried as an integer whose `String(v)` form is its
decimal representation; `boolV` the booleans; `strV` a string (or any other
value, e.g. a non-finite number or a Date, coerced by `String(v)` to the
carried character list). -/
inductive ParameterValue where
  | null : ParameterValue
  | num (n : Int) : ParameterValue
  | boolV (b : Bool) : ParameterValue
  | strV (s : List Char) : ParameterValue
deriving DecidableEq

/-- `s.replace(/'/g, "''")` of `escapeSqlValue`: double every single quote. -/
def doubleSingleQuotes : List Char → List Char
  | [] => []
  | c :: rest =>
    if c == '\'' then '\'' :: '\'' :: doubleSingleQuotes rest
    else c :: doubleSingleQuotes rest

/-- `escapeSqlValue` (sql-merge-tool.tsx lines 20–29): null/undefined map to
`NULL`, finite numbers to their decimal text, booleans to `TRUE`/`FALSE`, and
everything else is coerced to text, its single quotes doubled, and wrapped in
single quotes. -/
def escapeSqlValue : ParameterValue → List Char
  | .null => "NULL".data
  | .num n => (toString n).data
  | .boolV b => if b then "TRUE".data else "FALSE".data
  | .strV s => '\'' :: (doubleSingleQuotes s ++ ['\''])

/-- Loop of `countPlaceholders` (lines 31–73).  The three booleans are the
`inSingle`/`inDouble`/`inBack` quote-state flags; each equation mirrors one
iteration of the `for` loop (an escaped doubled quote consumes two
characters, like the `i++; continue` of the source).  The iteration on the
last character (where the lookahead `sql[i+1]` is `undefined`, so no escape
pair can fire) is the separate `[c]` equation, its recursive calls on the
empty remainder evaluated away. -/
def countAux (inS inD inB : Bool) : List Char → Nat
  | [] => 0
  | [c] =>
    if !inD && !inB && c == '\'' then 0
    else if !inS && !inB && c == '"' then 0
    else if !inS && !inD && c == backtickChar then 0
    else if !inS && !inD && !inB && c == '?' then 1
    else 0
  | c :: c2 :: rest2 =>
    if !inD && !inB && c == '\'' then
      if inS && c2 == '\'' then countAux inS inD inB rest2
      else countAux (!inS) inD inB (c2 :: rest2)
    else if !inS && !inB && c == '"' then
      if inD && c2 == '"' then countAux inS inD inB rest2
      else countAux inS (!inD) inB (c2 :: rest2)
    else if !inS && !inD && c == backtickChar then
      if inB && c2 == backtickChar then countAux inS inD inB rest2
      else countAux inS inD (!inB) (c2 :: rest2)
    else if !inS && !inD && !inB && c == '?' then
      countAux inS inD inB (c2 :: rest2) + 1
    else
      countAux inS inD inB (c2 :: rest2)

/-- `countPlaceholders(sql)`: count of unquoted `?`, scanning from the
all-unquoted start state. -/
def countPlaceholders (sql : List Char) : Nat :=
  countAux false false false sql

/-- Loop of `mergeSql` (lines 84–132): returns the output text and the
number of parameters consumed (`pi`).  Parameters are consumed from the head
of the list, matching the advancing index `pi` of the source. -/
def mergeAux (inS inD inB : Bool) (ps : List ParameterValue) :
    List Char → List Char × Nat
  | [] => ([], 0)
  | [c] =>
    if !inD && !inB && c == '\'' then ([c], 0)
    else if !inS && !inB && c == '"' then ([c], 0)
    else if !inS && !inD && c == backtickChar then ([c], 0)
    else if !inS && !inD && !inB && c == '?' then
      match ps with
      | [] => (['?'], 0)
      | p :: _ => (escapeSqlValue p, 1)
    else ([c], 0)
  | c :: c2 :: rest2 =>
    if !inD && !inB && c == '\'' then
      if inS && c2 == '\'' then
        let r := mergeAux inS inD inB ps rest2
        ('\'' :: '\'' :: r.1, r.2)
      else
        let r := mergeAux (!inS) inD inB ps (c2 :: rest2)
        (c :: r.1, r.2)
    else if !inS && !inB && c == '"' then
      if inD && c2 == '"' then
        let r := mergeAux inS inD inB ps rest2
        ('"' :: '"' :: r.1, r.2)
      else
        let r := mergeAux inS (!inD) inB ps (c2 :: rest2)
        (c :: r.1, r.2)
    else if !inS && !inD && c == backtickChar then
      if inB && c2 == backtickChar then
        let r := mergeAux inS inD inB ps rest2
        (backtickChar :: backtickChar :: r.1, r.2)
      else
        let r := mergeAux inS inD (!inB) ps (c2 :: rest2)
        (c :: r.1, r.2)
    else if !inS && !inD && !inB && c == '?' then
      match ps with
      | [] =>
        let r := mergeAux inS inD inB [] (c2 :: rest2)
        ('?' :: r.1, r.2)
      | p :: ps2 =>
        let r := mergeAux inS inD inB ps2 (c2 :: rest2)
        (escapeSqlValue p ++ r.1, r.2 + 1)
    else
      let r := mergeAux inS inD inB ps (c2 :: rest2)
      (c :: r.1, r.2)

/-- `MergeResult` (lines 13–18). -/
structure MergeResult where
  result : List Char
  error : Option (List Char)
  usedCount : Nat
  placeholderCount : Nat
deriving DecidableEq

/-- The `Too many parameters: provided ..., used ....` message text. -/
def tooManyMsg (provided used : Nat) : List Char :=
  ("Too many parameters: provided " ++ toString provided ++ ", used "
    ++ toString used ++ ".").data

/-- The `Not enough parameters: placeholders=..., provided=....` message. -/
def notEnoughMsg (placeholders provided : Nat) : List Char :=
  ("Not enough parameters: placeholders=" ++ toString placeholders
    ++ ", provided=" ++ toString provided ++ ".").data

/-- `mergeSql` (lines 75–151): run the scan, then reconcile counts.  Errors
are returned as data in the `MergeResult`, never thrown. -/
def mergeSql (sql : List Char) (params : List ParameterValue) : MergeResult :=
  let placeholderCount := countPlaceholders sql
  let r := mergeAux false false false params sql
  if r.2 < params.length then
    { result := r.1
      error := some (tooManyMsg params.length r.2)
      usedCount := r.2
      placeholderCount := placeholderCount }
  else if r.2 < placeholderCount then
    { result := r.1
      error := some (notEnoughMsg placeholderCount params.length)
      usedCount := r.2
      placeholderCount := placeholderCount }
  else
    { result := r.1
      error := none
      usedCount := r.2
      placeholderCount := placeholderCount }

/-- The sequence of quote states `(inSingle, inDouble, inBack)` that the
shared quote-tracking loop of `countPlaceholders` and `mergeSql` holds at
each iteration of its scan: the branch and state-update structure is exactly
that of `countAux`/`mergeAux`, but recording the state at each position
instead of counting or emitting. -/
def quoteScanStates (inS inD inB : Bool) : List Char → List (Bool × Bool × Bool)
  | [] => []
  | [c] =>
    [(inS, inD, inB)] ++
      (if !inD && !inB && c == '\'' then []
      else if !inS && !inB && c == '"' then []
      else if !inS && !inD && c == backtickChar then []
      else [])
  | c :: c2 :: rest2 =>
    (inS, inD, inB) ::
      (if !inD && !inB && c == '\'' then
        if inS && c2 == '\'' then quoteScanStates inS inD inB rest2
        else quoteScanStates (!inS) inD inB (c2 :: rest2)
      else if !inS && !inB && c == '"' then
        if inD && c2 == '"' then quoteScanStates inS inD inB rest2
        else quoteScanStates inS (!inD) inB (c2 :: rest2)
      else if !inS && !inD && c == backtickChar then
        if inB && c2 == backtickChar then quoteScanStates inS inD inB rest2
        else quoteScanStates inS inD (!inB) (c2 :: rest2)
      else
        quoteScanStates inS inD inB (c2 :: rest2))

/-- At most one of the three quote-state flags is set. -/
def atMostOneFlag (s : Bool × Bool × Bool) : Bool :=
  !(s.1 && s.2.1) && !(s.1 && s.2.2) && !(s.2.1 && s.2.2)

/-- Body of `appendSpace` in `minifySqlPreserveStrings` (lines 735–740): the
output is accumulated in reverse (`racc`), so the last emitted character
`out[out.length - 1]` is the head; no space is emitted right after `(` or `,`
or when nothing has been emitted yet. -/
def appendSpace (racc : List Char) : List Char :=
  match racc with
  | [] => racc
  | '(' :: _ => racc
  | ',' :: _ => racc
  | _ => ' ' :: racc

/-- Loop of `minifySqlPreserveStrings` (lines 726–848), with the output
accumulated in reverse.  The source's inner `while` loops over a quoted
region are re-expressed through the `inSingle`/`inDouble`/`inBack` flags the
source itself keeps: an iteration with a flag set performs exactly one step
of the corresponding inner loop (the flags are mutually exclusive, and in
the source the outer loop only ever observes them all false).
`prevWasSpace` (`pws`) is read only by the whitespace branch; the source
sets it to `false` when a quoted region ends, modelled at the closing-quote
step. -/
def minifyAux (inS inD inB : Bool) (racc : List Char) (pws : Bool) :
    List Char → List Char
  | [] => racc.reverse
  | [c] =>
    -- last character: no lookahead, so no escape pair can fire
    (if inS then
      if c == '\'' then '\'' :: racc else c :: racc
    else if inD then
      if c == '"' then '"' :: racc else c :: racc
    else if inB then
      if c == backtickChar then backtickChar :: racc else c :: racc
    else if c == '\'' || c == '"' || c == backtickChar then c :: racc
    else if jsWhitespace c then
      if pws then racc
      else appendSpace racc  -- the upcoming-character peek finds end of input
    else c :: racc).reverse
  | c :: c2 :: rest2 =>
    if inS then
      if c == '\'' && c2 == '\'' then
        minifyAux true inD inB ('\'' :: '\'' :: racc) pws rest2
      else if c == '\'' then
        minifyAux false inD inB ('\'' :: racc) false (c2 :: rest2)
      else minifyAux true inD inB (c :: racc) pws (c2 :: rest2)
    else if inD then
      if c == '"' && c2 == '"' then
        minifyAux inS true inB ('"' :: '"' :: racc) pws rest2
      else if c == '"' then
        minifyAux inS false inB ('"' :: racc) false (c2 :: rest2)
      else minifyAux inS true inB (c :: racc) pws (c2 :: rest2)
    else if inB then
      if c == backtickChar && c2 == backtickChar then
        minifyAux inS inD true (backtickChar :: backtickChar :: racc) pws rest2
      else if c == backtickChar then
        minifyAux inS inD false (backtickChar :: racc) false (c2 :: rest2)
      else minifyAux inS inD true (c :: racc) pws (c2 :: rest2)
    else if c == '\'' then
      minifyAux true false false ('\'' :: racc) pws (c2 :: rest2)
    else if c == '"' then
      minifyAux false true false ('"' :: racc) pws (c2 :: rest2)
    else if c == backtickChar then
      minifyAux false false true (backtickChar :: racc) pws (c2 :: rest2)
    else if jsWhitespace c then
      if pws then minifyAux false false false racc true (c2 :: rest2)
      else
        let nextNon := ((c2 :: rest2).dropWhile jsWhitespace).head?
        if nextNon != some ')' && nextNon != some ',' then
          minifyAux false false false (appendSpace racc) true (c2 :: rest2)
        else minifyAux false false false racc true (c2 :: rest2)
    else minifyAux false false false (c :: racc) false (c2 :: rest2)

/-- `String.prototype.trim` on the character list. -/
def jsTrim (l : List Char) : List Char :=
  ((l.dropWhile jsWhitespace).reverse.dropWhile jsWhitespace).reverse

/-- `minifySqlPreserveStrings` (lines 726–848): run the scan from the
all-false state with empty output, then trim. -/
def minifySqlPreserveStrings (input : List Char) : List Char :=
  jsTrim (minifyAux false false false [] false input)

/-- One character of `escapeHtml` (lines 300–307).  The source applies five
global `replace` passes in the order `&`, `<`, `>`, `"`, `'`; since none of
the replacement entities contains a character replaced by a later pass, the
sequential passes coincide with this independent per-character mapping. -/
def escapeHtmlChar (c : Char) : List Char :=
  if c == '&' then "&amp;".data
  else if c == '<' then "&lt;".data
  else if c == '>' then "&gt;".data
  else if c == '"' then "&quot;".data
  else if c == '\'' then "&#39;".data
  else [c]

/-- `escapeHtml` (lines 300–307). -/
def escapeHtml (s : List Char) : List Char :=
  s.flatMap escapeHtmlChar

/-- The keyword set of `highlightSqlHtml` (lines 312–353), lower-case. -/
def hlKeywords : List (List Char) :=
  ["select".data, "from".data, "where".data, "group".data, "by".data,
   "having".data, "order".data, "limit".data, "offset".data, "join".data,
   "left".data, "right".data, "inner".data, "outer".data, "cross".data,
   "on".data, "and".data, "or".data, "union".data, "all".data, "into".data,
   "values".data, "set".data, "update".data, "insert".data, "delete".data,
   "distinct".data, "as".data, "case".data, "when".data, "then".data,
   "end".data, "is".data, "null".data, "like".data, "in".data,
   "exists".data, "not".data, "between".data, "top".data]

/-- Markup fragments emitted by the highlighter. -/
def spanKeywordOpen : List Char :=
  "<span class=\"text-code-keyword font-medium\">".data

/-- Opening tag for single-quoted string regions. -/
def spanAccentOpen : List Char := "<span class=\"text-accent-foreground\">".data

/-- Opening tag for double-quoted and back-tick identifier regions. -/
def spanMutedOpen : List Char := "<span class=\"text-muted-foreground\">".data

/-- Opening tag for numeric literals. -/
def spanSecondaryOpen : List Char :=
  "<span class=\"text-secondary-foreground\">".data

/-- The closing tag. -/
def spanClose : List Char := "</span>".data

/-- `flushWord` of `highlightSqlHtml` (lines 361–372): keyword words are
upper-cased and wrapped in the keyword span, other words pass through
escaped. -/
def flushWord (word : List Char) : List Char :=
  if word == ([] : List Char) then []
  else if hlKeywords.contains (word.map Char.toLower) then
    spanKeywordOpen ++ escapeHtml (word.map Char.toUpper) ++ spanClose
  else escapeHtml word

/-- The word-character class `/[A-Za-z_]/` of the highlighter. -/
def isWordChar (c : Char) : Bool :=
  c.isAlpha || c == '_'

/-- The numeric-continuation class `/[0-9_.]/` of the highlighter. -/
def isNumTail (c : Char) : Bool :=
  c.isDigit || c == '_' || c == '.'

/-- Loop of `highlightSqlHtml` (lines 309–489), with the inner `while`
loops over quoted regions and the inner numeric scan re-expressed through
the quote-state flags and a number accumulator (`numAcc`, non-empty exactly
while the numeric scan of lines 460–471 is in progress; `word` is the word
accumulator of the source).  Each equation is one iteration.  Note the
source's closing-quote branches run `i++` *and* fall back to the `for`
update, so the character immediately after a closed quoted region is
consumed without being emitted — mirrored by recursing on `rest2` in the
closing branches. -/
def hlAux (inS inD inB : Bool) (word numAcc : List Char) :
    List Char → List Char
  | [] =>
    if inS || inD || inB then spanClose
    else if numAcc != ([] : List Char) then
      spanSecondaryOpen ++ escapeHtml numAcc ++ spanClose
    else flushWord word
  | [c] =>
    if inS then
      escapeHtml [c] ++ spanClose
    else if inD then
      escapeHtml [c] ++ spanClose
    else if inB then
      escapeHtml [c] ++ spanClose
    else if numAcc != ([] : List Char) then
      spanSecondaryOpen ++ escapeHtml (numAcc ++ [c]) ++ spanClose
    else if c == '\'' then
      flushWord word ++ spanAccentOpen ++ escapeHtml ['\''] ++ spanClose
    else if c == '"' then
      flushWord word ++ spanMutedOpen ++ escapeHtml ['"'] ++ spanClose
    else if c == backtickChar then
      flushWord word ++ spanMutedOpen ++ escapeHtml [backtickChar] ++ spanClose
    else if c.isDigit then
      flushWord word ++ spanSecondaryOpen ++ escapeHtml [c] ++ spanClose
    else if isWordChar c then
      flushWord (word ++ [c])
    else
      flushWord word ++ escapeHtml [c]
  | c :: c2 :: rest2 =>
    if inS then
      if c == '\'' && c2 == '\'' then
        escapeHtml ['\'', '\''] ++ hlAux true inD inB word numAcc rest2
      else if c == '\'' then
        escapeHtml ['\''] ++ spanClose ++ hlAux false inD inB word numAcc rest2
      else
        escapeHtml [c] ++ hlAux true inD inB word numAcc (c2 :: rest2)
    else if inD then
      if c == '"' && c2 == '"' then
        escapeHtml ['"', '"'] ++ hlAux inS true inB word numAcc rest2
      else if c == '"' then
        escapeHtml ['"'] ++ spanClose ++ hlAux inS false inB word numAcc rest2
      else
        escapeHtml [c] ++ hlAux inS true inB word numAcc (c2 :: rest2)
    else if inB then
      if c == backtickChar && c2 == backtickChar then
        escapeHtml [backtickChar, backtickChar]
          ++ hlAux inS inD true word numAcc rest2
      else if c == backtickChar then
        escapeHtml [backtickChar] ++ spanClose
          ++ hlAux inS inD false word numAcc rest2
      else
        escapeHtml [c] ++ hlAux inS inD true word numAcc (c2 :: rest2)
    else if numAcc != ([] : List Char) then
      if isNumTail c2 then
        hlAux inS inD inB word (numAcc ++ [c]) (c2 :: rest2)
      else
        spanSecondaryOpen ++ escapeHtml (numAcc ++ [c]) ++ spanClose
          ++ hlAux inS inD inB word [] (c2 :: rest2)
    else if c == '\'' then
      flushWord word ++ spanAccentOpen ++ escapeHtml ['\'']
        ++ hlAux true false false [] [] (c2 :: rest2)
    else if c == '"' then
      flushWord word ++ spanMutedOpen ++ escapeHtml ['"']
        ++ hlAux false true false [] [] (c2 :: rest2)
    else if c == backtickChar then
      flushWord word ++ spanMutedOpen ++ escapeHtml [backtickChar]
        ++ hlAux false false true [] [] (c2 :: rest2)
    else if c.isDigit || (c == '.' && c2.isDigit) then
      if isNumTail c2 then
        flushWord word ++ hlAux inS inD inB [] [c] (c2 :: rest2)
      else
        flushWord word ++ spanSecondaryOpen ++ escapeHtml [c] ++ spanClose
          ++ hlAux inS inD inB [] [] (c2 :: rest2)
    else if isWordChar c then
      hlAux inS inD inB (word ++ [c]) numAcc (c2 :: rest2)
    else
      flushWord word ++ escapeHtml [c] ++ hlAux inS inD inB [] [] (c2 :: rest2)

/-- `highlightSqlHtml` (lines 309–489). -/
def highlightSqlHtml (input : List Char) : List Char :=
  hlAux false false false [] [] input

/-- A single-quoted region, as scanned from just after its opening quote: the
copied text (escape pairs kept, closing quote included when present) and the
remainder of the input after the region.  This is the region notion shared by
all the scanners. -/
def copySingleQuoted : List Char → List Char × List Char
  | [] => ([], [])
  | [c] => ([c], [])
  | c :: c2 :: rest2 =>
    if c == '\'' && c2 == '\'' then
      let r := copySingleQuoted rest2
      ('\'' :: '\'' :: r.1, r.2)
    else if c == '\'' then
      (['\''], c2 :: rest2)
    else
      let r := copySingleQuoted (c2 :: rest2)
      (c :: r.1, r.2)

/-- A double-quoted region, as scanned from just after its opening quote. -/
def copyDoubleQuoted : List Char → List Char × List Char
  | [] => ([], [])
  | [c] => ([c], [])
  | c :: c2 :: rest2 =>
    if c == '"' && c2 == '"' then
      let r := copyDoubleQuoted rest2
      ('"' :: '"' :: r.1, r.2)
    else if c == '"' then
      (['"'], c2 :: rest2)
    else
      let r := copyDoubleQuoted (c2 :: rest2)
      (c :: r.1, r.2)

/-- A back-tick region, as scanned from just after its opening quote. -/
def copyBacktickQuoted : List Char → List Char × List Char
  | [] => ([], [])
  | [c] => ([c], [])
  | c :: c2 :: rest2 =>
    if c == backtickChar && c2 == backtickChar then
      let r := copyBacktickQuoted rest2
      (backtickChar :: backtickChar :: r.1, r.2)
    else if c == backtickChar then
      ([backtickChar], c2 :: rest2)
    else
      let r := copyBacktickQuoted (c2 :: rest2)
      (c :: r.1, r.2)

/-- The nearest non-space character at the end of `chunk`, falling back to
`prev` when `chunk` is all whitespace: tracks the "nearest non-space
previously emitted character" through an emitted chunk. -/
def lastNonWsEmitted (chunk : List Char) (prev : Option Char) : Option Char :=
  match (chunk.reverse.dropWhile jsWhitespace).head? with
  | some c => some c
  | none => prev

/-- Modelled from the spec's words (§4.6), for comparison with the source's
`minifySqlPreserveStrings`: copy quoted regions verbatim (including escape
pairs); outside quotes collapse every whitespace run to a single space,
suppressed entirely when the nearest non-space previously emitted character
is `(` or `,`, or when the nearest non-space upcoming character is `)` or
`,`.  `prev` carries the nearest non-space emitted so far. -/
def specMinifyCore (prev : Option Char) (l : List Char) : List Char :=
  match l with
  | [] => []
  | c :: rest =>
    if c == '\'' then
      let r := copySingleQuoted rest
      ('\'' :: r.1) ++ specMinifyCore (lastNonWsEmitted ('\'' :: r.1) prev) r.2
    else if c == '"' then
      let r := copyDoubleQuoted rest
      ('"' :: r.1) ++ specMinifyCore (lastNonWsEmitted ('"' :: r.1) prev) r.2
    else if c == backtickChar then
      let r := copyBacktickQuoted rest
      (backtickChar :: r.1)
        ++ specMinifyCore (lastNonWsEmitted (backtickChar :: r.1) prev) r.2
    else if jsWhitespace c then
      let l2 := rest.dropWhile jsWhitespace
      if prev == some '(' || prev == some ','
          || l2.head? == some ')' || l2.head? == some ',' then
        specMinifyCore prev l2
      else
        ' ' :: specMinifyCore (lastNonWsEmitted [' '] prev) l2
    else
      c :: specMinifyCore (lastNonWsEmitted [c] prev) rest
termination_by l.length
decreasing_by
  all_goals simp_wf
  · have key : ∀ m : List Char, (copySingleQuoted m).2.length ≤ m.length := by
      intro m
      induction m using copySingleQuoted.induct with
      | case1 => simp [copySingleQuoted]
      | case2 c => simp [copySingleQuoted]
      | case3 c c2 rest2 h ih =>
        simp only [copySingleQuoted, h, if_pos]
        simp at ih ⊢
        omega
      | case4 c c2 rest2 h h2 =>
        have h3 : (c2 == '\'') = false := by
          rcases Bool.eq_false_or_eq_true (c2 == '\'') with h4 | h4
          · exact absurd (by simp [h2, h4]) h
          · exact h4
        simp [copySingleQuoted, h, h2, h3]
      | case5 c c2 rest2 h h2 ih =>
        simp only [copySingleQuoted, h, h2, if_neg, Bool.false_eq_true, not_false_iff]
        simp at ih ⊢
        omega
    have := key rest
    omega
  · have key : ∀ m : List Char, (copyDoubleQuoted m).2.length ≤ m.length := by
      intro m
      induction m using copyDoubleQuoted.induct with
      | case1 => simp [copyDoubleQuoted]
      | case2 c => simp [copyDoubleQuoted]
      | case3 c c2 rest2 h ih =>
        simp only [copyDoubleQuoted, h, if_pos]
        simp at ih ⊢
        omega
      | case4 c c2 rest2 h h2 =>
        have h3 : (c2 == '"') = false := by
          rcases Bool.eq_false_or_eq_true (c2 == '"') with h4 | h4
          · exact absurd (by simp [h2, h4]) h
          · exact h4
        simp [copyDoubleQuoted, h, h2, h3]
      | case5 c c2 rest2 h h2 ih =>
        simp only [copyDoubleQuoted, h, h2, if_neg, Bool.false_eq_true, not_false_iff]
        simp at ih ⊢
        omega
    have := key rest
    omega
  · have key : ∀ m : List Char, (copyBacktickQuoted m).2.length ≤ m.length := by
      intro m
      induction m using copyBacktickQuoted.induct with
      | case1 => simp [copyBacktickQuoted]
      | case2 c => simp [copyBacktickQuoted]
      | case3 c c2 rest2 h ih =>
        simp only [copyBacktickQuoted, h, if_pos]
        simp at ih ⊢
        omega
      | case4 c c2 rest2 h h2 =>
        have h3 : (c2 == backtickChar) = false := by
          rcases Bool.eq_false_or_eq_true (c2 == backtickChar) with h4 | h4
          · exact absurd (by simp [h2, h4]) h
          · exact h4
        simp [copyBacktickQuoted, h, h2, h3]
      | case5 c c2 rest2 h h2 ih =>
        simp only [copyBacktickQuoted, h, h2, if_neg, Bool.false_eq_true, not_false_iff]
        simp at ih ⊢
        omega
    have := key rest
    omega
  · have key : ∀ m : List Char, (m.dropWhile jsWhitespace).length ≤ m.length := by
      intro m
      induction m with
      | nil => simp
      | cons a t ih =>
        by_cases h : jsWhitespace a
        · rw [List.dropWhile_cons_of_pos h]
          simp
          omega
        · rw [List.dropWhile_cons_of_neg h]
    have := key rest
    omega
  · have key : ∀ m : List Char, (m.dropWhile jsWhitespace).length ≤ m.length := by
      intro m
      induction m with
      | nil => simp
      | cons a t ih =>
        by_cases h : jsWhitespace a
        · rw [List.dropWhile_cons_of_pos h]
          simp
          omega
        · rw [List.dropWhile_cons_of_neg h]
    have := key rest
    omega

/-- Modelled from the spec's words (§4.6): the spec-side minifier — the
scan from an empty output, trimmed of leading and trailing whitespace. -/
def minifySpec (l : List Char) : List Char :=
  jsTrim (specMinifyCore none l)

/-- The markup fragments the highlighter emits as its own tags. -/
def hlTags : List (List Char) :=
  [spanKeywordOpen, spanAccentOpen, spanMutedOpen, spanSecondaryOpen, spanClose]

/-- Texts assembled only from the highlighter's own markup tags and
HTML-escaped pieces of source text: in such a text, every `<`, `>`, `&`,
`"` or `'` outside the emitted tags comes from `escapeHtml` and is therefore
escaped. -/
inductive SafePieces : List Char → Prop where
  | nil : SafePieces []
  | tag (t rest : List Char) : t ∈ hlTags → SafePieces rest →
      SafePieces (t ++ rest)
  | esc (s rest : List Char) : SafePieces rest →
      SafePieces (escapeHtml s ++ rest)

/-- The sequence of quote states `(inSingle, inDouble, inBack)` that the
first pass of `formatSql` (lines 214–260) holds at each iteration of its
scan.  The flag guards, the doubled-quote escape pairs consuming two
characters, and the toggles are exactly those of the source loop — the same
discipline as the counter/merger scan — while the word accumulation of the
pass affects only the output, never the flags or the scan position. -/
def fmtScanStates (inS inD inB : Bool) : List Char → List (Bool × Bool × Bool)
  | [] => []
  | [c] =>
    [(inS, inD, inB)] ++
      (if !inD && !inB && c == '\'' then []
      else if !inS && !inB && c == '"' then []
      else if !inS && !inD && c == backtickChar then []
      else [])
  | c :: c2 :: rest2 =>
    (inS, inD, inB) ::
      (if !inD && !inB && c == '\'' then
        if inS && c2 == '\'' then fmtScanStates inS inD inB rest2
        else fmtScanStates (!inS) inD inB (c2 :: rest2)
      else if !inS && !inB && c == '"' then
        if inD && c2 == '"' then fmtScanStates inS inD inB rest2
        else fmtScanStates inS (!inD) inB (c2 :: rest2)
      else if !inS && !inD && c == backtickChar then
        if inB && c2 == backtickChar then fmtScanStates inS inD inB rest2
        else fmtScanStates inS inD (!inB) (c2 :: rest2)
      else
        fmtScanStates inS inD inB (c2 :: rest2))

/-- The sequence of quote states that the `minifySqlPreserveStrings` loop
(lines 726–848) holds at each character it examines, with the branch and
state-update structure of `minifyAux`: a step with a flag set is one step of
the corresponding inner region loop, escape pairs consume two characters,
a closing quote clears the flag and the next character is examined by the
outer loop, and the whitespace and normal branches (which never touch the
flags) run with all flags false. -/
def minifyScanStates (inS inD inB : Bool) :
    List Char → List (Bool × Bool × Bool)
  | [] => []
  | [_] =>
    [(inS, inD, inB)]
  | c :: c2 :: rest2 =>
    (inS, inD, inB) ::
      (if inS then
        if c == '\'' && c2 == '\'' then minifyScanStates true inD inB rest2
        else if c == '\'' then minifyScanStates false inD inB (c2 :: rest2)
        else minifyScanStates true inD inB (c2 :: rest2)
      else if inD then
        if c == '"' && c2 == '"' then minifyScanStates inS true inB rest2
        else if c == '"' then minifyScanStates inS false inB (c2 :: rest2)
        else minifyScanStates inS true inB (c2 :: rest2)
      else if inB then
        if c == backtickChar && c2 == backtickChar then
          minifyScanStates inS inD true rest2
        else if c == backtickChar then
          minifyScanStates inS inD false (c2 :: rest2)
        else minifyScanStates inS inD true (c2 :: rest2)
      else if c == '\'' then minifyScanStates true false false (c2 :: rest2)
      else if c == '"' then minifyScanStates false true false (c2 :: rest2)
      else if c == backtickChar then
        minifyScanStates false false true (c2 :: rest2)
      else minifyScanStates false false false (c2 :: rest2))

/-- The sequence of quote states that the `highlightSqlHtml` loop (lines
374–485) holds at each character it examines, with the branch structure of
`hlAux`: region steps mirror the inner loops (escape pairs consume two
characters, and the character right after a closed region is skipped
without being examined, as in the source), `numMode` tracks a pending
number scan exactly where `hlAux` carries a non-empty `numAcc`, and
entering a region sets one flag with the other two false. -/
def hlScanStates (inS inD inB numMode : Bool) :
    List Char → List (Bool × Bool × Bool)
  | [] => []
  | [_] =>
    [(inS, inD, inB)]
  | c :: c2 :: rest2 =>
    (inS, inD, inB) ::
      (if inS then
        if c == '\'' && c2 == '\'' then
          hlScanStates true inD inB numMode rest2
        else if c == '\'' then hlScanStates false inD inB numMode rest2
        else hlScanStates true inD inB numMode (c2 :: rest2)
      else if inD then
        if c == '"' && c2 == '"' then hlScanStates inS true inB numMode rest2
        else if c == '"' then hlScanStates inS false inB numMode rest2
        else hlScanStates inS true inB numMode (c2 :: rest2)
      else if inB then
        if c == backtickChar && c2 == backtickChar then
          hlScanStates inS inD true numMode rest2
        else if c == backtickChar then
          hlScanStates inS inD false numMode rest2
        else hlScanStates inS inD true numMode (c2 :: rest2)
      else if numMode then
        if isNumTail c2 then hlScanStates inS inD inB true (c2 :: rest2)
        else hlScanStates inS inD inB false (c2 :: rest2)
      else if c == '\'' then hlScanStates true false false false (c2 :: rest2)
      else if c == '"' then hlScanStates false true false false (c2 :: rest2)
      else if c == backtickChar then
        hlScanStates false false true false (c2 :: rest2)
      else if c.isDigit || (c == '.' && c2.isDigit) then
        if isNumTail c2 then hlScanStates inS inD inB true (c2 :: rest2)
        else hlScanStates inS inD inB false (c2 :: rest2)
      else hlScanStates inS inD inB numMode (c2 :: rest2))

/-! ## Theorems -/

/-- `doubleSingleQuotes` doubles exactly the single quotes, characterised
independently of its recursion. -/
theorem doubleSingleQuotes_eq_flatMap (t : List Char) :
    doubleSingleQuotes t
      = t.flatMap (fun c => if c = '\'' then ['\'', '\''] else [c]) := by
  induction t with
  | nil => rfl
  | cons c rest ih =>
    by_cases h : c = '\''
    · simp [doubleSingleQuotes, h, ih]
    · simp [doubleSingleQuotes, h, ih]

/-- C4: the value escaper maps null/undefined to the literal NULL, finite
numbers to their decimal textual form unquoted, booleans to TRUE/FALSE, and
any other value to its textual representation with every single quote
doubled, wrapped in single quotes; in particular O'Reilly becomes
'O''Reilly'. -/
theorem c4_escape_sql_value_spec :
    escapeSqlValue .null = "NULL".data
      ∧ (∀ n : Int, escapeSqlValue (.num n) = (toString n).data)
      ∧ escapeSqlValue (.boolV true) = "TRUE".data
      ∧ escapeSqlValue (.boolV false) = "FALSE".data
      ∧ (∀ s : List Char,
          escapeSqlValue (.strV s)
            = '\'' :: ((s.flatMap fun c => if c = '\'' then ['\'', '\''] else [c])
                ++ ['\'']))
      ∧ escapeSqlValue (.strV "O'Reilly".data) = "'O''Reilly'".data := by
  refine ⟨rfl, fun n => rfl, rfl, rfl, fun s => ?_, by decide⟩
  simp [escapeSqlValue, doubleSingleQuotes_eq_flatMap]

/-- C5: the placeholder counter does not count the quoted question mark:
`countPlaceholders "SELECT '?' FROM t WHERE x = ?" = 1`. -/
theorem c5_quoted_question_not_counted :
    countPlaceholders "SELECT '?' FROM t WHERE x = ?".data = 1 := by decide

/-- C7 counterexample: `minifySql "SELECT  a ,  b  FROM t"` is not
`"SELECT a, b FROM t"` — the source suppresses the space right after the
comma. -/
theorem c7_counterexample :
    ¬ (minifySqlPreserveStrings "SELECT  a ,  b  FROM t".data
        = "SELECT a, b FROM t".data) := by decide

/-- C7 amended: `minifySql "SELECT  a ,  b  FROM t" = "SELECT a,b FROM t"`
(no space after the comma, per the minifier's suppression rule). -/
theorem c7_amended :
    minifySqlPreserveStrings "SELECT  a ,  b  FROM t".data
      = "SELECT a,b FROM t".data := by decide

/-- The quote-state invariant is preserved from any state with at most one
flag set. -/
theorem quoteScanStates_inv : ∀ (inS inD inB : Bool) (l : List Char),
    atMostOneFlag (inS, inD, inB) = true →
    (quoteScanStates inS inD inB l).all atMostOneFlag = true := by
  intro inS inD inB l
  induction inS, inD, inB, l using quoteScanStates.induct with
  | case1 inS inD inB => intro h; simp [quoteScanStates]
  | case2 inS inD inB c => intro h; simp [quoteScanStates, h]
  | case3 inS inD inB c c2 rest2 ih1 ih2 ih3 ih4 ih5 =>
    intro h
    simp only [quoteScanStates, List.all_cons, h, Bool.true_and]
    split
    case isTrue hg =>
      simp only [Bool.and_eq_true, Bool.not_eq_true'] at hg
      split
      case isTrue hp => exact ih1 h
      case isFalse hp =>
        apply ih2
        simp [atMostOneFlag, hg.1.1, hg.1.2]
    case isFalse hg =>
      split
      case isTrue hg2 =>
        simp only [Bool.and_eq_true, Bool.not_eq_true'] at hg2
        split
        case isTrue hp => exact ih1 h
        case isFalse hp =>
          apply ih3
          simp [atMostOneFlag, hg2.1.1, hg2.1.2]
      case isFalse hg2 =>
        split
        case isTrue hg3 =>
          simp only [Bool.and_eq_true, Bool.not_eq_true'] at hg3
          split
          case isTrue hp => exact ih1 h
          case isFalse hp =>
            apply ih4
            simp [atMostOneFlag, hg3.1.1, hg3.1.2]
        case isFalse hg3 => exact ih5 h

theorem fmtScanStates_inv : ∀ (inS inD inB : Bool) (l : List Char),
    atMostOneFlag (inS, inD, inB) = true →
    (fmtScanStates inS inD inB l).all atMostOneFlag = true := by
  intro inS inD inB l
  induction inS, inD, inB, l using fmtScanStates.induct with
  | case1 inS inD inB => intro h; simp [fmtScanStates]
  | case2 inS inD inB c => intro h; simp [fmtScanStates, h]
  | case3 inS inD inB c c2 rest2 ih1 ih2 ih3 ih4 ih5 =>
    intro h
    simp only [fmtScanStates, List.all_cons, h, Bool.true_and]
    split
    case isTrue hg =>
      simp only [Bool.and_eq_true, Bool.not_eq_true'] at hg
      split
      case isTrue hp => exact ih1 h
      case isFalse hp =>
        apply ih2
        simp [atMostOneFlag, hg.1.1, hg.1.2]
    case isFalse hg =>
      split
      case isTrue hg2 =>
        simp only [Bool.and_eq_true, Bool.not_eq_true'] at hg2
        split
        case isTrue hp => exact ih1 h
        case isFalse hp =>
          apply ih3
          simp [atMostOneFlag, hg2.1.1, hg2.1.2]
      case isFalse hg2 =>
        split
        case isTrue hg3 =>
          simp only [Bool.and_eq_true, Bool.not_eq_true'] at hg3
          split
          case isTrue hp => exact ih1 h
          case isFalse hp =>
            apply ih4
            simp [atMostOneFlag, hg3.1.1, hg3.1.2]
        case isFalse hg3 => exact ih5 h

theorem minifyScanStates_inv : ∀ (n : Nat) (inS inD inB : Bool)
    (l : List Char), l.length ≤ n →
    atMostOneFlag (inS, inD, inB) = true →
    (minifyScanStates inS inD inB l).all atMostOneFlag = true := by
  intro n
  induction n with
  | zero =>
    intro inS inD inB l hl h
    cases l with
    | nil => simp [minifyScanStates]
    | cons a b => simp at hl
  | succ n ihn =>
    intro inS inD inB l hl h
    cases l with
    | nil => simp [minifyScanStates]
    | cons c rest =>
      cases rest with
      | nil => simp [minifyScanStates, h]
      | cons c2 rest2 =>
        have hl2 : rest2.length ≤ n := by
          simp only [List.length_cons] at hl
          omega
        have hl1 : (c2 :: rest2).length ≤ n := by
          simp only [List.length_cons] at hl ⊢
          omega
        simp only [minifyScanStates, List.all_cons, h, Bool.true_and]
        split_ifs <;>
          first
          | exact ihn _ _ _ _ hl1 h
          | exact ihn _ _ _ _ hl2 h
          | exact ihn _ _ _ _ hl2 (by simp_all [atMostOneFlag])
          | exact ihn _ _ _ _ hl1 (by simp_all [atMostOneFlag])

theorem hlScanStates_inv : ∀ (n : Nat) (inS inD inB numMode : Bool)
    (l : List Char), l.length ≤ n →
    atMostOneFlag (inS, inD, inB) = true →
    (hlScanStates inS inD inB numMode l).all atMostOneFlag = true := by
  intro n
  induction n with
  | zero =>
    intro inS inD inB numMode l hl h
    cases l with
    | nil => simp [hlScanStates]
    | cons a b => simp at hl
  | succ n ihn =>
    intro inS inD inB numMode l hl h
    cases l with
    | nil => simp [hlScanStates]
    | cons c rest =>
      cases rest with
      | nil => simp [hlScanStates, h]
      | cons c2 rest2 =>
        have hl2 : rest2.length ≤ n := by
          simp only [List.length_cons] at hl
          omega
        have hl1 : (c2 :: rest2).length ≤ n := by
          simp only [List.length_cons] at hl ⊢
          omega
        simp only [hlScanStates, List.all_cons, h, Bool.true_and]
        split_ifs <;>
          first
          | exact ihn _ _ _ _ _ hl1 h
          | exact ihn _ _ _ _ _ hl2 h
          | exact ihn _ _ _ _ _ hl2 (by simp_all [atMostOneFlag])
          | exact ihn _ _ _ _ _ hl1 (by simp_all [atMostOneFlag])

/-- C6: in every quote-tracked scan of the program — the scan shared by the
counter and the merger, the formatter's first pass, the highlighter, and
the minifier — starting from the all-false state, at most one of the three
quote-state flags `(inSingle, inDouble, inBack)` is set at every scan
position: quote kinds never nest or overlap. -/
theorem c6_quote_states_exclusive (l : List Char) :
    (quoteScanStates false false false l).all atMostOneFlag = true
    ∧ (fmtScanStates false false false l).all atMostOneFlag = true
    ∧ (hlScanStates false false false false l).all atMostOneFlag = true
    ∧ (minifyScanStates false false false l).all atMostOneFlag = true :=
  ⟨quoteScanStates_inv false false false l rfl,
   fmtScanStates_inv false false false l rfl,
   hlScanStates_inv l.length false false false false l le_rfl rfl,
   minifyScanStates_inv l.length false false false l le_rfl rfl⟩

theorem backtick_ne_squote : ¬ (backtickChar = '\'') := by decide

theorem backtick_ne_dquote : ¬ (backtickChar = '"') := by decide

theorem qmark_ne_backtick : ¬ ('?' = backtickChar) := by decide

theorem countAux_squote_step (inS : Bool) (rest : List Char) :
    countAux inS false false ('\'' :: rest) = countAux (!inS) false false rest := by
  cases inS with
  | false => cases rest <;> simp [countAux]
  | true =>
    cases rest with
    | nil => simp [countAux]
    | cons c2 rest2 =>
      by_cases h : (c2 == '\'') = true
      · have hc2 : c2 = '\'' := by simpa using h
        subst hc2
        cases rest2 <;> simp [countAux]
      · simp [countAux, h]

theorem countAux_dquote_step (inD : Bool) (rest : List Char) :
    countAux false inD false ('"' :: rest) = countAux false (!inD) false rest := by
  cases inD with
  | false => cases rest <;> simp [countAux]
  | true =>
    cases rest with
    | nil => simp [countAux]
    | cons c2 rest2 =>
      by_cases h : (c2 == '"') = true
      · have hc2 : c2 = '"' := by simpa using h
        subst hc2
        cases rest2 <;> simp [countAux]
      · simp [countAux, h]

theorem countAux_btick_step (inB : Bool) (rest : List Char) :
    countAux false false inB (backtickChar :: rest)
      = countAux false false (!inB) rest := by
  cases inB with
  | false => cases rest <;> simp [countAux, backtick_ne_squote, backtick_ne_dquote]
  | true =>
    cases rest with
    | nil => simp [countAux]
    | cons c2 rest2 =>
      by_cases h : (c2 == backtickChar) = true
      · have hc2 : c2 = backtickChar := by simpa using h
        subst hc2
        cases rest2 <;> simp [countAux, backtick_ne_squote, backtick_ne_dquote]
      · simp [countAux, h, backtick_ne_squote, backtick_ne_dquote]

theorem countAux_qmark_step (rest : List Char) :
    countAux false false false ('?' :: rest)
      = countAux false false false rest + 1 := by
  cases rest <;> simp [countAux, qmark_ne_backtick]

theorem countAux_other_step (inS inD inB : Bool) (c : Char) (rest : List Char)
    (h1 : (!inD && !inB && c == '\'') = false)
    (h2 : (!inS && !inB && c == '"') = false)
    (h3 : (!inS && !inD && c == backtickChar) = false)
    (h4 : (!inS && !inD && !inB && c == '?') = false) :
    countAux inS inD inB (c :: rest) = countAux inS inD inB rest := by
  cases rest <;> simp [countAux, h1, h2, h3, h4]

/-- Characters that none of the quote-tracking branches react to. -/
@[reducible] def sqlInert (c : Char) : Prop :=
  ¬ (c = '\'') ∧ ¬ (c = '"') ∧ ¬ (c = backtickChar) ∧ ¬ (c = '?')

theorem countAux_append_inert (l rest : List Char)
    (h : ∀ c ∈ l, sqlInert c) :
    countAux false false false (l ++ rest)
      = countAux false false false rest := by
  induction l with
  | nil => rfl
  | cons c l2 ih =>
    have hc := h c (by simp)
    obtain ⟨hc1, hc2, hc3, hc4⟩ := hc
    rw [List.cons_append,
        countAux_other_step false false false c (l2 ++ rest)
          (by simp [hc1]) (by simp [hc2]) (by simp [hc3]) (by simp [hc4])]
    exact ih (fun d hd => h d (by simp [hd]))

theorem digitChar_sqlInert (m : Nat) : sqlInert (Nat.digitChar m) := by
  by_cases h0 : m = 0
  · subst h0; decide
  by_cases h1 : m = 1
  · subst h1; decide
  by_cases h2 : m = 2
  · subst h2; decide
  by_cases h3 : m = 3
  · subst h3; decide
  by_cases h4 : m = 4
  · subst h4; decide
  by_cases h5 : m = 5
  · subst h5; decide
  by_cases h6 : m = 6
  · subst h6; decide
  by_cases h7 : m = 7
  · subst h7; decide
  by_cases h8 : m = 8
  · subst h8; decide
  by_cases h9 : m = 9
  · subst h9; decide
  by_cases h10 : m = 10
  · subst h10; decide
  by_cases h11 : m = 11
  · subst h11; decide
  by_cases h12 : m = 12
  · subst h12; decide
  by_cases h13 : m = 13
  · subst h13; decide
  by_cases h14 : m = 14
  · subst h14; decide
  by_cases h15 : m = 15
  · subst h15; decide
  simp only [Nat.digitChar, if_neg h0, if_neg h1, if_neg h2, if_neg h3, if_neg h4, if_neg h5, if_neg h6, if_neg h7, if_neg h8, if_neg h9, if_neg h10, if_neg h11, if_neg h12, if_neg h13, if_neg h14, if_neg h15]
  decide

theorem toDigitsCore_sqlInert (b : Nat) :
    ∀ (fuel n : Nat) (acc : List Char), (∀ c ∈ acc, sqlInert c) →
      ∀ c ∈ Nat.toDigitsCore b fuel n acc, sqlInert c := by
  intro fuel
  induction fuel with
  | zero =>
    intro n acc hacc c hc
    rw [Nat.toDigitsCore] at hc
    exact hacc c hc
  | succ fuel ih =>
    intro n acc hacc c hc
    rw [Nat.toDigitsCore] at hc
    have hcons : ∀ d ∈ Nat.digitChar (n % b) :: acc, sqlInert d := by
      intro d hd
      rcases List.mem_cons.mp hd with h | h
      · rw [h]; exact digitChar_sqlInert _
      · exact hacc d h
    split at hc
    · exact hcons c hc
    · exact ih _ _ hcons c hc

theorem natRepr_sqlInert (n : Nat) : ∀ c ∈ (Nat.repr n).data, sqlInert c := by
  intro c hc
  have : (Nat.repr n).data = Nat.toDigits 10 n := rfl
  rw [this, Nat.toDigits] at hc
  exact toDigitsCore_sqlInert 10 (n + 1) n [] (by simp) c hc

theorem intRepr_sqlInert (n : Int) : ∀ c ∈ (toString n).data, sqlInert c := by
  intro c hc
  cases n with
  | ofNat m =>
    have : (toString (Int.ofNat m)).data = (Nat.repr m).data := rfl
    rw [this] at hc
    exact natRepr_sqlInert m c hc
  | negSucc m =>
    have : (toString (Int.negSucc m)).data = '-' :: (Nat.repr (m + 1)).data := rfl
    rw [this] at hc
    rcases List.mem_cons.mp hc with h | h
    · rw [h]; decide
    · exact natRepr_sqlInert (m + 1) c h

theorem countAux_dq_append (s : List Char) (rest : List Char) :
    countAux true false false (doubleSingleQuotes s ++ '\'' :: rest)
      = countAux false false false rest := by
  induction s with
  | nil =>
    simp only [doubleSingleQuotes, List.nil_append]
    have := countAux_squote_step true rest
    simpa using this
  | cons c s2 ih =>
    by_cases h : (c == '\'') = true
    · have hc : c = '\'' := by simpa using h
      subst hc
      simp only [doubleSingleQuotes, beq_self_eq_true, if_pos, List.cons_append]
      rw [show ('\'' :: '\'' :: (doubleSingleQuotes s2 ++ '\'' :: rest))
            = '\'' :: '\'' :: (doubleSingleQuotes s2 ++ '\'' :: rest) from rfl]
      simp only [countAux, beq_self_eq_true, Bool.and_true, Bool.not_false,
        Bool.and_self, if_pos]
      exact ih
    · simp only [doubleSingleQuotes, h, if_neg, Bool.false_eq_true, not_false_iff,
        List.cons_append]
      rw [countAux_other_step true false false c _
          (by simp_all) (by simp) (by simp) (by simp)]
      exact ih

theorem countAux_esc_append (p : ParameterValue) (rest : List Char) :
    countAux false false false (escapeSqlValue p ++ rest)
      = countAux false false false rest := by
  cases p with
  | null => exact countAux_append_inert _ _ (by decide)
  | num n => exact countAux_append_inert _ _ (intRepr_sqlInert n)
  | boolV b =>
    cases b
    · exact countAux_append_inert _ _ (by decide)
    · exact countAux_append_inert _ _ (by decide)
  | strV s =>
    show countAux false false false
        (('\'' :: (doubleSingleQuotes s ++ ['\''])) ++ rest) = _
    rw [List.cons_append, List.append_assoc, List.singleton_append]
    rw [countAux_squote_step false]
    simpa using countAux_dq_append s rest

theorem mergeAux_count : ∀ (inS inD inB : Bool) (ps : List ParameterValue)
    (l : List Char),
    countAux inS inD inB (mergeAux inS inD inB ps l).1
      = countAux inS inD inB l - ps.length := by
  intro inS inD inB ps l
  induction inS, inD, inB, ps, l using mergeAux.induct with
  | case1 => simp [mergeAux, countAux]
  | case2 inS inD inB ps c h1 => simp [mergeAux, countAux, h1]
  | case3 inS inD inB ps c h1 h2 => simp [mergeAux, countAux, h1, h2]
  | case4 inS inD inB ps c h1 h2 h3 => simp [mergeAux, countAux, h1, h2, h3]
  | case5 inS inD inB c h1 h2 h3 h4 =>
    simp only [Bool.and_eq_true, Bool.not_eq_true', beq_iff_eq] at h4
    obtain ⟨⟨⟨hS, hD⟩, hB⟩, hc⟩ := h4
    subst hS; subst hD; subst hB; subst hc
    simp [mergeAux, countAux, h1, h2, h3, qmark_ne_backtick]
  | case6 inS inD inB c h1 h2 h3 h4 p tail =>
    simp only [Bool.and_eq_true, Bool.not_eq_true', beq_iff_eq] at h4
    obtain ⟨⟨⟨hS, hD⟩, hB⟩, hc⟩ := h4
    subst hS; subst hD; subst hB; subst hc
    simp only [mergeAux, countAux, h1, h2, h3]
    have := countAux_esc_append p []
    simp only [List.append_nil] at this
    simp [this, countAux, h1, h2, h3]
  | case7 inS inD inB ps c h1 h2 h3 h4 => simp [mergeAux, countAux, h1, h2, h3, h4]
  | case8 inS inD inB ps c c2 rest2 h1 hp ih =>
    simp only [Bool.and_eq_true, Bool.not_eq_true', beq_iff_eq] at h1 hp
    obtain ⟨⟨hD, hB⟩, hc⟩ := h1
    obtain ⟨hS, hc2⟩ := hp
    subst hD; subst hB; subst hc; subst hS; subst hc2
    simpa [mergeAux, countAux] using ih
  | case9 inS inD inB ps c c2 rest2 h1 hp ih =>
    simp only [Bool.and_eq_true, Bool.not_eq_true', beq_iff_eq] at h1
    obtain ⟨⟨hD, hB⟩, hc⟩ := h1
    subst hD; subst hB; subst hc
    have hm : (mergeAux inS false false ps ('\'' :: c2 :: rest2)).1
        = '\'' :: (mergeAux (!inS) false false ps (c2 :: rest2)).1 := by
      simp [mergeAux, hp]
    rw [hm, countAux_squote_step, countAux_squote_step, ih]
  | case10 inS inD inB ps c c2 rest2 h1 h2 hp ih =>
    simp only [Bool.and_eq_true, Bool.not_eq_true', beq_iff_eq] at h2 hp
    obtain ⟨⟨hS, hB⟩, hc⟩ := h2
    obtain ⟨hD, hc2⟩ := hp
    subst hS; subst hB; subst hc; subst hD; subst hc2
    simpa [mergeAux, countAux, h1] using ih
  | case11 inS inD inB ps c c2 rest2 h1 h2 hp ih =>
    simp only [Bool.and_eq_true, Bool.not_eq_true', beq_iff_eq] at h2
    obtain ⟨⟨hS, hB⟩, hc⟩ := h2
    subst hS; subst hB; subst hc
    have hm : (mergeAux false inD false ps ('"' :: c2 :: rest2)).1
        = '"' :: (mergeAux false (!inD) false ps (c2 :: rest2)).1 := by
      simp [mergeAux, h1, hp]
    rw [hm, countAux_dquote_step, countAux_dquote_step, ih]
  | case12 inS inD inB ps c c2 rest2 h1 h2 h3 hp ih =>
    simp only [Bool.and_eq_true, Bool.not_eq_true', beq_iff_eq] at h3 hp
    obtain ⟨⟨hS, hD⟩, hc⟩ := h3
    obtain ⟨hB, hc2⟩ := hp
    subst hS; subst hD; subst hc; subst hB; subst hc2
    simpa [mergeAux, countAux, h1, h2, backtick_ne_squote, backtick_ne_dquote]
      using ih
  | case13 inS inD inB ps c c2 rest2 h1 h2 h3 hp ih =>
    simp only [Bool.and_eq_true, Bool.not_eq_true', beq_iff_eq] at h3
    obtain ⟨⟨hS, hD⟩, hc⟩ := h3
    subst hS; subst hD; subst hc
    have hm : (mergeAux false false inB ps (backtickChar :: c2 :: rest2)).1
        = backtickChar :: (mergeAux false false (!inB) ps (c2 :: rest2)).1 := by
      simp [mergeAux, h1, h2, hp, backtick_ne_squote, backtick_ne_dquote]
    rw [hm, countAux_btick_step, countAux_btick_step, ih]
  | case14 inS inD inB c c2 rest2 h1 h2 h3 h4 ih =>
    simp only [Bool.and_eq_true, Bool.not_eq_true', beq_iff_eq] at h4
    obtain ⟨⟨⟨hS, hD⟩, hB⟩, hc⟩ := h4
    subst hS; subst hD; subst hB; subst hc
    have hm : (mergeAux false false false [] ('?' :: c2 :: rest2)).1
        = '?' :: (mergeAux false false false [] (c2 :: rest2)).1 := by
      simp [mergeAux, h1, h2, h3, qmark_ne_backtick]
    rw [hm, countAux_qmark_step, countAux_qmark_step, ih]
    simp
  | case15 inS inD inB c c2 rest2 h1 h2 h3 h4 p tail ih =>
    simp only [Bool.and_eq_true, Bool.not_eq_true', beq_iff_eq] at h4
    obtain ⟨⟨⟨hS, hD⟩, hB⟩, hc⟩ := h4
    subst hS; subst hD; subst hB; subst hc
    have hm : (mergeAux false false false (p :: tail) ('?' :: c2 :: rest2)).1
        = escapeSqlValue p ++ (mergeAux false false false tail (c2 :: rest2)).1 := by
      simp [mergeAux, h1, h2, h3, qmark_ne_backtick]
    rw [hm, countAux_esc_append, countAux_qmark_step, ih]
    simp only [List.length_cons]
    omega
  | case16 inS inD inB ps c c2 rest2 h1 h2 h3 h4 ih =>
    rw [Bool.not_eq_true] at h1 h2 h3 h4
    have hm : (mergeAux inS inD inB ps (c :: c2 :: rest2)).1
        = c :: (mergeAux inS inD inB ps (c2 :: rest2)).1 := by
      simp [mergeAux, h1, h2, h3, h4]
    rw [hm, countAux_other_step inS inD inB c _ h1 h2 h3 h4,
      countAux_other_step inS inD inB c _ h1 h2 h3 h4, ih]

theorem mergeAux_used : ∀ (inS inD inB : Bool) (ps : List ParameterValue) (l : List Char),
    (mergeAux inS inD inB ps l).2 = min ps.length (countAux inS inD inB l) := by
  intro inS inD inB ps l
  induction inS, inD, inB, ps, l using mergeAux.induct with
  | case1 => simp [mergeAux, countAux]
  | case2 inS inD inB ps c h1 => simp [mergeAux, countAux, h1]
  | case3 inS inD inB ps c h1 h2 => simp [mergeAux, countAux, h1, h2]
  | case4 inS inD inB ps c h1 h2 h3 => simp [mergeAux, countAux, h1, h2, h3]
  | case5 inS inD inB c h1 h2 h3 h4 => simp [mergeAux, countAux, h1, h2, h3, h4]
  | case6 inS inD inB c h1 h2 h3 h4 p tail =>
    simp [mergeAux, countAux, h1, h2, h3, h4]
  | case7 inS inD inB ps c h1 h2 h3 h4 => simp [mergeAux, countAux, h1, h2, h3, h4]
  | case8 inS inD inB ps c c2 rest2 h1 hp ih =>
    simp [mergeAux, countAux, h1, hp, ih]
  | case9 inS inD inB ps c c2 rest2 h1 hp ih =>
    simp [mergeAux, countAux, h1, hp, ih]
  | case10 inS inD inB ps c c2 rest2 h1 h2 hp ih =>
    simp [mergeAux, countAux, h1, h2, hp, ih]
  | case11 inS inD inB ps c c2 rest2 h1 h2 hp ih =>
    simp [mergeAux, countAux, h1, h2, hp, ih]
  | case12 inS inD inB ps c c2 rest2 h1 h2 h3 hp ih =>
    simp [mergeAux, countAux, h1, h2, h3, hp, ih]
  | case13 inS inD inB ps c c2 rest2 h1 h2 h3 hp ih =>
    simp [mergeAux, countAux, h1, h2, h3, hp, ih]
  | case14 inS inD inB c c2 rest2 h1 h2 h3 h4 ih =>
    simp [mergeAux, countAux, h1, h2, h3, h4, ih]
  | case15 inS inD inB c c2 rest2 h1 h2 h3 h4 p tail ih =>
    simp [mergeAux, countAux, h1, h2, h3, h4, ih]
    omega
  | case16 inS inD inB ps c c2 rest2 h1 h2 h3 h4 ih =>
    simp [mergeAux, countAux, h1, h2, h3, h4, ih]

theorem mergeAux_nil_params : ∀ (inS inD inB : Bool) (ps : List ParameterValue)
    (l : List Char), (mergeAux inS inD inB [] l).1 = l := by
  intro inS inD inB ps l
  induction inS, inD, inB, ps, l using mergeAux.induct <;>
    (try simp_all [mergeAux, backtick_ne_squote, backtick_ne_dquote,
      qmark_ne_backtick]) <;>
    (try split_ifs) <;> simp_all

theorem mergeSql_usedCount (sql : List Char) (ps : List ParameterValue) :
    (mergeSql sql ps).usedCount = min ps.length (countPlaceholders sql) := by
  have hu := mergeAux_used false false false ps sql
  simp only [mergeSql]
  split_ifs <;> simpa [countPlaceholders] using hu

theorem mergeSql_placeholderCount (sql : List Char) (ps : List ParameterValue) :
    (mergeSql sql ps).placeholderCount = countPlaceholders sql := by
  simp only [mergeSql]
  split_ifs <;> rfl

theorem mergeSql_result (sql : List Char) (ps : List ParameterValue) :
    (mergeSql sql ps).result = (mergeAux false false false ps sql).1 := by
  simp only [mergeSql]
  split_ifs <;> rfl

/-- C1: for every SQL text and parameter list of length at least
`countPlaceholders sql`, the merger consumes exactly `countPlaceholders sql`
parameters — the counter's and the merger's quote-tracking scans agree on
which question marks are unquoted placeholders. -/
theorem c1_counter_merger_agree (sql : List Char) (params : List ParameterValue)
    (h : countPlaceholders sql ≤ params.length) :
    (mergeSql sql params).usedCount = countPlaceholders sql := by
  rw [mergeSql_usedCount]
  omega

/-- Witness for C1 at the tool's example query with three parameters. -/
theorem c1_witness :
    countPlaceholders
        "SELECT * FROM abc WHERE abc.id = ? AND abc.anotherId IN (?, ?)".data
      ≤ ([ParameterValue.strV "784".data, .num 123, .num 456] : List ParameterValue).length
    ∧ (mergeSql "SELECT * FROM abc WHERE abc.id = ? AND abc.anotherId IN (?, ?)".data
        [ParameterValue.strV "784".data, .num 123, .num 456]).usedCount
      = countPlaceholders
          "SELECT * FROM abc WHERE abc.id = ? AND abc.anotherId IN (?, ?)".data :=
  ⟨by decide, c1_counter_merger_agree _ _ (by decide)⟩

/-- C2: merging with exactly `countPlaceholders sql` parameters yields no
error, and the result contains zero remaining unquoted question marks. -/
theorem c2_merge_round_trip (sql : List Char) (params : List ParameterValue)
    (h : params.length = countPlaceholders sql) :
    (mergeSql sql params).error = none
      ∧ countPlaceholders (mergeSql sql params).result = 0 := by
  have hu := mergeAux_used false false false params sql
  have hc := mergeAux_count false false false params sql
  rw [show countAux false false false sql = countPlaceholders sql from rfl] at hu hc
  constructor
  · simp only [mergeSql]
    split_ifs with h1 h2
    · exfalso; omega
    · exfalso; omega
    · rfl
  · rw [mergeSql_result]
    show countAux false false false (mergeAux false false false params sql).1 = 0
    omega

/-- Witness for C2 at Scenario A. -/
theorem c2_witness :
    ([ParameterValue.strV "784".data] : List ParameterValue).length
        = countPlaceholders "SELECT * FROM t WHERE id = ?".data
      ∧ ((mergeSql "SELECT * FROM t WHERE id = ?".data
            [ParameterValue.strV "784".data]).error = none
        ∧ countPlaceholders
            (mergeSql "SELECT * FROM t WHERE id = ?".data
              [ParameterValue.strV "784".data]).result = 0) :=
  ⟨by decide, c2_merge_round_trip _ _ (by decide)⟩

/-- C3: `mergeSql` always returns a `MergeResult` (a total function whose
errors are data).  When the consumed count is below the provided parameter
count the error is the "too many parameters" message reporting provided and
used counts; when it is below the unquoted placeholder count the error is
the "not enough parameters" message reporting placeholder and provided
counts; on exact match there is no error; and in every case the merged text
is still returned, with exactly the unconsumed placeholders left in place
as unquoted question marks. -/
theorem c3_error_reporting (sql : List Char) (ps : List ParameterValue) :
    ((mergeSql sql ps).usedCount < ps.length →
        (mergeSql sql ps).error
          = some (tooManyMsg ps.length (mergeSql sql ps).usedCount))
      ∧ ((mergeSql sql ps).usedCount < countPlaceholders sql →
        (mergeSql sql ps).error
          = some (notEnoughMsg (countPlaceholders sql) ps.length))
      ∧ (ps.length = countPlaceholders sql → (mergeSql sql ps).error = none)
      ∧ (mergeSql sql ps).result = (mergeAux false false false ps sql).1
      ∧ countPlaceholders (mergeSql sql ps).result
          = countPlaceholders sql - (mergeSql sql ps).usedCount := by
  have hu := mergeAux_used false false false ps sql
  have hc := mergeAux_count false false false ps sql
  rw [show countAux false false false sql = countPlaceholders sql from rfl] at hu hc
  have hr := mergeSql_result sql ps
  have hused := mergeSql_usedCount sql ps
  simp only [mergeSql]
  split_ifs with h1 h2
  · refine ⟨fun _ => rfl, fun hx => absurd hx (by simp; omega), fun hx => ?_, rfl, ?_⟩
    · exfalso; omega
    · show countAux false false false (mergeAux false false false ps sql).1 = _
      dsimp only
      omega
  · refine ⟨fun hx => absurd hx (by simp; omega), fun _ => rfl, fun hx => ?_, rfl, ?_⟩
    · exfalso; omega
    · show countAux false false false (mergeAux false false false ps sql).1 = _
      dsimp only
      omega
  · refine ⟨fun hx => absurd hx (by simp; omega), fun hx => absurd hx (by simp; omega),
      fun _ => rfl, rfl, ?_⟩
    show countAux false false false (mergeAux false false false ps sql).1 = _
    dsimp only
    omega

/-- Witness for C3 at Scenario B, where the not-enough-parameters branch
fires. -/
theorem c3_witness :
    (mergeSql "WHERE a IN (?, ?)".data [ParameterValue.num 1]).usedCount
        < countPlaceholders "WHERE a IN (?, ?)".data
      ∧ (mergeSql "WHERE a IN (?, ?)".data [ParameterValue.num 1]).error
        = some (notEnoughMsg (countPlaceholders "WHERE a IN (?, ?)".data) 1) := by
  refine ⟨by decide, ?_⟩
  have h := (c3_error_reporting "WHERE a IN (?, ?)".data
    [ParameterValue.num 1]).2.1 (by decide)
  simpa using h

/-- C10: `usedCount` is the minimum of the parameter count and the
placeholder count, `placeholderCount` is `countPlaceholders sql`, the two
error conditions cannot both hold (for each the complementary bound holds),
and merging with an empty parameter list returns the input unchanged. -/
theorem c10_used_min_and_empty_identity (sql : List Char)
    (ps : List ParameterValue) :
    (mergeSql sql ps).usedCount = min ps.length (countPlaceholders sql)
      ∧ (mergeSql sql ps).placeholderCount = countPlaceholders sql
      ∧ (ps.length ≤ (mergeSql sql ps).usedCount
          ∨ countPlaceholders sql ≤ (mergeSql sql ps).usedCount)
      ∧ (mergeSql sql []).result = sql := by
  refine ⟨mergeSql_usedCount sql ps, mergeSql_placeholderCount sql ps, ?_, ?_⟩
  · rw [mergeSql_usedCount]
    omega
  · rw [mergeSql_result]
    exact mergeAux_nil_params false false false [] sql

theorem sp_tag {t rest : List Char} (ht : t ∈ hlTags) (h : SafePieces rest) :
    SafePieces (t ++ rest) := SafePieces.tag t rest ht h

theorem sp_esc {s rest : List Char} (h : SafePieces rest) :
    SafePieces (escapeHtml s ++ rest) := SafePieces.esc s rest h

theorem sp_esc_alone (s : List Char) : SafePieces (escapeHtml s) := by
  have := sp_esc (s := s) SafePieces.nil
  simpa using this

theorem sp_spanClose : SafePieces spanClose := by
  have := sp_tag (t := spanClose) (by simp [hlTags]) SafePieces.nil
  simpa using this

theorem sp_spanKeywordOpen_append {rest : List Char} (h : SafePieces rest) :
    SafePieces (spanKeywordOpen ++ rest) := sp_tag (by simp [hlTags]) h

theorem sp_spanAccentOpen_append {rest : List Char} (h : SafePieces rest) :
    SafePieces (spanAccentOpen ++ rest) := sp_tag (by simp [hlTags]) h

theorem sp_spanMutedOpen_append {rest : List Char} (h : SafePieces rest) :
    SafePieces (spanMutedOpen ++ rest) := sp_tag (by simp [hlTags]) h

theorem sp_spanSecondaryOpen_append {rest : List Char} (h : SafePieces rest) :
    SafePieces (spanSecondaryOpen ++ rest) := sp_tag (by simp [hlTags]) h

theorem sp_spanClose_append {rest : List Char} (h : SafePieces rest) :
    SafePieces (spanClose ++ rest) := sp_tag (by simp [hlTags]) h

theorem sp_flushWord_append (w rest : List Char) (h : SafePieces rest) :
    SafePieces (flushWord w ++ rest) := by
  unfold flushWord
  split_ifs
  · simpa using h
  · rw [List.append_assoc, List.append_assoc]
    exact sp_spanKeywordOpen_append (sp_esc (sp_spanClose_append h))
  · exact sp_esc h

theorem sp_flushWord (w : List Char) : SafePieces (flushWord w) := by
  have := sp_flushWord_append w [] SafePieces.nil
  simpa using this

theorem hlAux_safe_aux : ∀ (n : Nat) (l : List Char), l.length ≤ n →
    ∀ (inS inD inB : Bool) (word numAcc : List Char),
    SafePieces (hlAux inS inD inB word numAcc l) := by
  intro n
  induction n with
  | zero =>
    intro l hl inS inD inB word numAcc
    cases l with
    | nil =>
      simp only [hlAux]
      split_ifs <;>
        repeat' (first
        | exact SafePieces.nil
        | exact sp_flushWord _
        | exact sp_spanClose
        | simp only [List.append_eq, List.nil_append, List.append_assoc]
        | apply sp_flushWord_append
        | apply sp_spanSecondaryOpen_append
        | apply sp_spanClose_append
        | rw [List.append_assoc]
        | apply sp_esc
        | exact sp_esc_alone _)
    | cons c rest => simp at hl
  | succ n ihn =>
    intro l hl inS inD inB word numAcc
    cases l with
    | nil =>
      simp only [hlAux]
      split_ifs <;>
        repeat' (first
        | exact SafePieces.nil
        | exact sp_flushWord _
        | exact sp_spanClose
        | simp only [List.append_eq, List.nil_append, List.append_assoc]
        | apply sp_flushWord_append
        | apply sp_spanSecondaryOpen_append
        | apply sp_spanClose_append
        | rw [List.append_assoc]
        | apply sp_esc
        | exact sp_esc_alone _)
    | cons c rest =>
      cases rest with
      | nil =>
        simp only [hlAux]
        split_ifs <;>
          repeat' (first
        | assumption
        | exact SafePieces.nil
        | exact sp_flushWord _
        | exact sp_spanClose
        | simp only [List.append_eq, List.nil_append, List.append_assoc]
        | apply sp_flushWord_append
        | apply sp_spanKeywordOpen_append
        | apply sp_spanAccentOpen_append
        | apply sp_spanMutedOpen_append
        | apply sp_spanSecondaryOpen_append
        | apply sp_spanClose_append
        | (apply ihn
           case _ => simp only [List.length_cons] at hl ⊢; omega)
        | rw [List.append_assoc]
        | apply sp_esc
        | exact sp_esc_alone _)
      | cons c2 rest2 =>
        simp only [hlAux]
        split_ifs <;>
          repeat' (first
        | assumption
        | exact SafePieces.nil
        | exact sp_flushWord _
        | exact sp_spanClose
        | simp only [List.append_eq, List.nil_append, List.append_assoc]
        | apply sp_flushWord_append
        | apply sp_spanKeywordOpen_append
        | apply sp_spanAccentOpen_append
        | apply sp_spanMutedOpen_append
        | apply sp_spanSecondaryOpen_append
        | apply sp_spanClose_append
        | (apply ihn
           case _ => simp only [List.length_cons] at hl ⊢; omega)
        | rw [List.append_assoc]
        | apply sp_esc
        | exact sp_esc_alone _)


/-- C9: for every input text, the highlighter's output is assembled solely
from its own markup tags and HTML-escaped pieces of input text, so no
unescaped special character from the input appears outside the emitted
tags. -/
theorem c9_highlighter_escapes (input : List Char) :
    SafePieces (highlightSqlHtml input) :=
  hlAux_safe_aux input.length input le_rfl false false false [] []


/-! ### The minifier agrees with the spec-side description (C8) -/

theorem ws_not_quote (c : Char) (h : jsWhitespace c = true) :
    (c == '\'') = false ∧ (c == '"') = false ∧ (c == backtickChar) = false := by
  simp only [jsWhitespace, Bool.or_eq_true, beq_iff_eq] at h
  rcases h with ((((h | h) | h) | h) | h) | h <;> subst h <;>
    exact ⟨by decide, by decide, by decide⟩

theorem copySingleQuoted_len : ∀ m : List Char,
    (copySingleQuoted m).2.length ≤ m.length := by
  intro m
  induction m using copySingleQuoted.induct with
  | case1 => simp [copySingleQuoted]
  | case2 c => simp [copySingleQuoted]
  | case3 c c2 rest2 h ih =>
    simp only [copySingleQuoted, h, if_pos]
    simp at ih ⊢
    omega
  | case4 c c2 rest2 h h2 =>
    have h3 : (c2 == '\'') = false := by
      rcases Bool.eq_false_or_eq_true (c2 == '\'') with h4 | h4
      · exact absurd (by simp [h2, h4]) h
      · exact h4
    simp [copySingleQuoted, h, h2, h3]
  | case5 c c2 rest2 h h2 ih =>
    simp only [copySingleQuoted, h, h2, if_neg, Bool.false_eq_true, not_false_iff]
    simp at ih ⊢
    omega

theorem copyDoubleQuoted_len : ∀ m : List Char,
    (copyDoubleQuoted m).2.length ≤ m.length := by
  intro m
  induction m using copyDoubleQuoted.induct with
  | case1 => simp [copyDoubleQuoted]
  | case2 c => simp [copyDoubleQuoted]
  | case3 c c2 rest2 h ih =>
    simp only [copyDoubleQuoted, h, if_pos]
    simp at ih ⊢
    omega
  | case4 c c2 rest2 h h2 =>
    have h3 : (c2 == '"') = false := by
      rcases Bool.eq_false_or_eq_true (c2 == '"') with h4 | h4
      · exact absurd (by simp [h2, h4]) h
      · exact h4
    simp [copyDoubleQuoted, h, h2, h3]
  | case5 c c2 rest2 h h2 ih =>
    simp only [copyDoubleQuoted, h, h2, if_neg, Bool.false_eq_true, not_false_iff]
    simp at ih ⊢
    omega

theorem copyBacktickQuoted_len : ∀ m : List Char,
    (copyBacktickQuoted m).2.length ≤ m.length := by
  intro m
  induction m using copyBacktickQuoted.induct with
  | case1 => simp [copyBacktickQuoted]
  | case2 c => simp [copyBacktickQuoted]
  | case3 c c2 rest2 h ih =>
    simp only [copyBacktickQuoted, h, if_pos]
    simp at ih ⊢
    omega
  | case4 c c2 rest2 h h2 =>
    have h3 : (c2 == backtickChar) = false := by
      rcases Bool.eq_false_or_eq_true (c2 == backtickChar) with h4 | h4
      · exact absurd (by simp [h2, h4]) h
      · exact h4
    simp [copyBacktickQuoted, h, h2, h3]
  | case5 c c2 rest2 h h2 ih =>
    simp only [copyBacktickQuoted, h, h2, if_neg, Bool.false_eq_true,
      not_false_iff]
    simp at ih ⊢
    omega

theorem copySingleQuoted_closed : ∀ m : List Char,
    (copySingleQuoted m).2 ≠ [] →
    ∃ pre, (copySingleQuoted m).1 = pre ++ ['\''] := by
  intro m
  induction m using copySingleQuoted.induct with
  | case1 => simp [copySingleQuoted]
  | case2 c => simp [copySingleQuoted]
  | case3 c c2 rest2 h ih =>
    simp only [copySingleQuoted, h, if_pos]
    intro hne
    obtain ⟨pre, hpre⟩ := ih hne
    exact ⟨'\'' :: '\'' :: pre, by simp [hpre]⟩
  | case4 c c2 rest2 h h2 =>
    have h3 : (c2 == '\'') = false := by
      rcases Bool.eq_false_or_eq_true (c2 == '\'') with h4 | h4
      · exact absurd (by simp [h2, h4]) h
      · exact h4
    intro hne
    exact ⟨[], by simp [copySingleQuoted, h, h2, h3]⟩
  | case5 c c2 rest2 h h2 ih =>
    simp only [copySingleQuoted, h, h2, if_neg, Bool.false_eq_true, not_false_iff]
    intro hne
    obtain ⟨pre, hpre⟩ := ih hne
    exact ⟨c :: pre, by simp [hpre]⟩

theorem copyDoubleQuoted_closed : ∀ m : List Char,
    (copyDoubleQuoted m).2 ≠ [] →
    ∃ pre, (copyDoubleQuoted m).1 = pre ++ ['"'] := by
  intro m
  induction m using copyDoubleQuoted.induct with
  | case1 => simp [copyDoubleQuoted]
  | case2 c => simp [copyDoubleQuoted]
  | case3 c c2 rest2 h ih =>
    simp only [copyDoubleQuoted, h, if_pos]
    intro hne
    obtain ⟨pre, hpre⟩ := ih hne
    exact ⟨'"' :: '"' :: pre, by simp [hpre]⟩
  | case4 c c2 rest2 h h2 =>
    have h3 : (c2 == '"') = false := by
      rcases Bool.eq_false_or_eq_true (c2 == '"') with h4 | h4
      · exact absurd (by simp [h2, h4]) h
      · exact h4
    intro hne
    exact ⟨[], by simp [copyDoubleQuoted, h, h2, h3]⟩
  | case5 c c2 rest2 h h2 ih =>
    simp only [copyDoubleQuoted, h, h2, if_neg, Bool.false_eq_true, not_false_iff]
    intro hne
    obtain ⟨pre, hpre⟩ := ih hne
    exact ⟨c :: pre, by simp [hpre]⟩

theorem copyBacktickQuoted_closed : ∀ m : List Char,
    (copyBacktickQuoted m).2 ≠ [] →
    ∃ pre, (copyBacktickQuoted m).1 = pre ++ [backtickChar] := by
  intro m
  induction m using copyBacktickQuoted.induct with
  | case1 => simp [copyBacktickQuoted]
  | case2 c => simp [copyBacktickQuoted]
  | case3 c c2 rest2 h ih =>
    simp only [copyBacktickQuoted, h, if_pos]
    intro hne
    obtain ⟨pre, hpre⟩ := ih hne
    exact ⟨backtickChar :: backtickChar :: pre, by simp [hpre]⟩
  | case4 c c2 rest2 h h2 =>
    have h3 : (c2 == backtickChar) = false := by
      rcases Bool.eq_false_or_eq_true (c2 == backtickChar) with h4 | h4
      · exact absurd (by simp [h2, h4]) h
      · exact h4
    intro hne
    exact ⟨[], by simp [copyBacktickQuoted, h, h2, h3]⟩
  | case5 c c2 rest2 h h2 ih =>
    simp only [copyBacktickQuoted, h, h2, if_neg, Bool.false_eq_true,
      not_false_iff]
    intro hne
    obtain ⟨pre, hpre⟩ := ih hne
    exact ⟨c :: pre, by simp [hpre]⟩

theorem minifyAux_single_region : ∀ (l : List Char), ∀ (racc : List Char)
    (pws : Bool),
    minifyAux true false false racc pws l
      = minifyAux false false false
          ((copySingleQuoted l).1.reverse ++ racc) false (copySingleQuoted l).2 := by
  intro l
  induction l using copySingleQuoted.induct with
  | case1 => intro racc pws; simp [minifyAux, copySingleQuoted]
  | case2 c =>
    intro racc pws
    by_cases h : (c == '\'') = true
    · have hc : c = '\'' := by simpa using h
      subst hc
      simp [minifyAux, copySingleQuoted]
    · simp [minifyAux, copySingleQuoted, h]
  | case3 c c2 rest2 h ih =>
    intro racc pws
    simp only [Bool.and_eq_true, beq_iff_eq] at h
    obtain ⟨hc, hc2⟩ := h
    subst hc; subst hc2
    have e1 : minifyAux true false false racc pws ('\'' :: '\'' :: rest2)
        = minifyAux true false false ('\'' :: '\'' :: racc) pws rest2 := by
      simp [minifyAux]
    have e2 : copySingleQuoted ('\'' :: '\'' :: rest2)
        = ('\'' :: '\'' :: (copySingleQuoted rest2).1,
            (copySingleQuoted rest2).2) := by
      simp [copySingleQuoted]
    rw [e1, e2, ih]
    simp
  | case4 c c2 rest2 h h2 =>
    intro racc pws
    have hc : c = '\'' := by simpa using h2
    have h3 : (c2 == '\'') = false := by
      rcases Bool.eq_false_or_eq_true (c2 == '\'') with h4 | h4
      · exact absurd (by simp [h2, h4]) h
      · exact h4
    subst hc
    simp [minifyAux, copySingleQuoted, h, h3]
  | case5 c c2 rest2 h h2 ih =>
    intro racc pws
    simp only [minifyAux, copySingleQuoted, h, h2, if_neg, Bool.false_eq_true,
      not_false_iff]
    rw [ih]
    simp [h2]

theorem minifyAux_double_region : ∀ (l : List Char), ∀ (racc : List Char)
    (pws : Bool),
    minifyAux false true false racc pws l
      = minifyAux false false false
          ((copyDoubleQuoted l).1.reverse ++ racc) false (copyDoubleQuoted l).2 := by
  intro l
  induction l using copyDoubleQuoted.induct with
  | case1 => intro racc pws; simp [minifyAux, copyDoubleQuoted]
  | case2 c =>
    intro racc pws
    by_cases h : (c == '"') = true
    · have hc : c = '"' := by simpa using h
      subst hc
      simp [minifyAux, copyDoubleQuoted]
    · simp [minifyAux, copyDoubleQuoted, h]
  | case3 c c2 rest2 h ih =>
    intro racc pws
    simp only [Bool.and_eq_true, beq_iff_eq] at h
    obtain ⟨hc, hc2⟩ := h
    subst hc; subst hc2
    have e1 : minifyAux false true false racc pws ('"' :: '"' :: rest2)
        = minifyAux false true false ('"' :: '"' :: racc) pws rest2 := by
      simp [minifyAux]
    have e2 : copyDoubleQuoted ('"' :: '"' :: rest2)
        = ('"' :: '"' :: (copyDoubleQuoted rest2).1,
            (copyDoubleQuoted rest2).2) := by
      simp [copyDoubleQuoted]
    rw [e1, e2, ih]
    simp
  | case4 c c2 rest2 h h2 =>
    intro racc pws
    have hc : c = '"' := by simpa using h2
    have h3 : (c2 == '"') = false := by
      rcases Bool.eq_false_or_eq_true (c2 == '"') with h4 | h4
      · exact absurd (by simp [h2, h4]) h
      · exact h4
    subst hc
    simp [minifyAux, copyDoubleQuoted, h, h3]
  | case5 c c2 rest2 h h2 ih =>
    intro racc pws
    simp only [minifyAux, copyDoubleQuoted, h, h2, if_neg, Bool.false_eq_true,
      not_false_iff]
    rw [ih]
    simp [h2]

theorem minifyAux_btick_region : ∀ (l : List Char), ∀ (racc : List Char)
    (pws : Bool),
    minifyAux false false true racc pws l
      = minifyAux false false false
          ((copyBacktickQuoted l).1.reverse ++ racc) false (copyBacktickQuoted l).2 := by
  intro l
  induction l using copyBacktickQuoted.induct with
  | case1 => intro racc pws; simp [minifyAux, copyBacktickQuoted]
  | case2 c =>
    intro racc pws
    by_cases h : (c == backtickChar) = true
    · have hc : c = backtickChar := by simpa using h
      subst hc
      simp [minifyAux, copyBacktickQuoted]
    · simp [minifyAux, copyBacktickQuoted, h]
  | case3 c c2 rest2 h ih =>
    intro racc pws
    simp only [Bool.and_eq_true, beq_iff_eq] at h
    obtain ⟨hc, hc2⟩ := h
    subst hc; subst hc2
    have e1 : minifyAux false false true racc pws (backtickChar :: backtickChar :: rest2)
        = minifyAux false false true (backtickChar :: backtickChar :: racc) pws rest2 := by
      simp [minifyAux]
    have e2 : copyBacktickQuoted (backtickChar :: backtickChar :: rest2)
        = (backtickChar :: backtickChar :: (copyBacktickQuoted rest2).1,
            (copyBacktickQuoted rest2).2) := by
      simp [copyBacktickQuoted]
    rw [e1, e2, ih]
    simp
  | case4 c c2 rest2 h h2 =>
    intro racc pws
    have hc : c = backtickChar := by simpa using h2
    have h3 : (c2 == backtickChar) = false := by
      rcases Bool.eq_false_or_eq_true (c2 == backtickChar) with h4 | h4
      · exact absurd (by simp [h2, h4]) h
      · exact h4
    subst hc
    simp [minifyAux, copyBacktickQuoted, h, h3]
  | case5 c c2 rest2 h h2 ih =>
    intro racc pws
    simp only [minifyAux, copyBacktickQuoted, h, h2, if_neg, Bool.false_eq_true,
      not_false_iff]
    rw [ih]
    simp [h2]

theorem minifyAux_skip_ws : ∀ (l racc : List Char),
    minifyAux false false false racc true l
      = minifyAux false false false racc true (l.dropWhile jsWhitespace) := by
  intro l
  induction l with
  | nil => intro racc; rfl
  | cons c rest ih =>
    intro racc
    by_cases h : jsWhitespace c = true
    · obtain ⟨hq1, hq2, hq3⟩ := ws_not_quote c h
      rw [List.dropWhile_cons_of_pos h]
      cases rest with
      | nil => simp [minifyAux, hq1, hq2, hq3, h]
      | cons c2 rest2 =>
        rw [show minifyAux false false false racc true (c :: c2 :: rest2)
            = minifyAux false false false racc true (c2 :: rest2) by
          simp [minifyAux, hq1, hq2, hq3, h]]
        exact ih racc
    · rw [List.dropWhile_cons_of_neg h]

theorem minifyAux_pws_switch : ∀ (l racc : List Char),
    (l.head?.all fun c => !jsWhitespace c) = true →
    minifyAux false false false racc true l
      = minifyAux false false false racc false l := by
  intro l racc h
  cases l with
  | nil => rfl
  | cons c rest =>
    simp only [List.head?_cons, Option.all_some, Bool.not_eq_true'] at h
    cases rest with
    | nil => simp [minifyAux, h]
    | cons c2 rest2 =>
      by_cases h1 : (c == '\'') = true
      · have hc : c = '\'' := by simpa using h1
        subst hc
        rw [show minifyAux false false false racc true ('\'' :: c2 :: rest2)
              = minifyAux true false false ('\'' :: racc) true (c2 :: rest2) by
            simp [minifyAux],
          show minifyAux false false false racc false ('\'' :: c2 :: rest2)
              = minifyAux true false false ('\'' :: racc) false (c2 :: rest2) by
            simp [minifyAux],
          minifyAux_single_region, minifyAux_single_region]
      · by_cases h2 : (c == '"') = true
        · have hc : c = '"' := by simpa using h2
          subst hc
          rw [show minifyAux false false false racc true ('"' :: c2 :: rest2)
                = minifyAux false true false ('"' :: racc) true (c2 :: rest2) by
              simp [minifyAux],
            show minifyAux false false false racc false ('"' :: c2 :: rest2)
                = minifyAux false true false ('"' :: racc) false (c2 :: rest2) by
              simp [minifyAux],
            minifyAux_double_region, minifyAux_double_region]
        · by_cases h3 : (c == backtickChar) = true
          · have hc : c = backtickChar := by simpa using h3
            subst hc
            rw [show minifyAux false false false racc true
                  (backtickChar :: c2 :: rest2)
                  = minifyAux false false true (backtickChar :: racc) true
                      (c2 :: rest2) by
                simp [minifyAux, backtick_ne_squote, backtick_ne_dquote],
              show minifyAux false false false racc false
                  (backtickChar :: c2 :: rest2)
                  = minifyAux false false true (backtickChar :: racc) false
                      (c2 :: rest2) by
                simp [minifyAux, backtick_ne_squote, backtick_ne_dquote],
              minifyAux_btick_region, minifyAux_btick_region]
          · simp [minifyAux, h, h1, h2, h3]

theorem head_dropWhile_not_ws (l : List Char) :
    ((l.dropWhile jsWhitespace).head?.all fun c => !jsWhitespace c) = true := by
  induction l with
  | nil => simp
  | cons c rest ih =>
    by_cases h : jsWhitespace c = true
    · rw [List.dropWhile_cons_of_pos h]; exact ih
    · rw [List.dropWhile_cons_of_neg h]
      simp [h]

theorem firstNonWs_append (chunk racc : List Char) :
    (((chunk.reverse ++ racc).dropWhile jsWhitespace).head?)
      = lastNonWsEmitted chunk ((racc.dropWhile jsWhitespace).head?) := by
  unfold lastNonWsEmitted
  induction chunk.reverse with
  | nil => simp
  | cons c rest ih =>
    by_cases h : jsWhitespace c = true
    · rw [List.cons_append, List.dropWhile_cons_of_pos h,
        List.dropWhile_cons_of_pos h]
      exact ih
    · rw [List.cons_append, List.dropWhile_cons_of_neg h,
        List.dropWhile_cons_of_neg h]
      simp

theorem lastNonWsEmitted_space (prev : Option Char) :
    lastNonWsEmitted [' '] prev = prev := by
  simp [lastNonWsEmitted, jsWhitespace]

theorem lastNonWsEmitted_nonws (c : Char) (prev : Option Char)
    (h : jsWhitespace c = false) : lastNonWsEmitted [c] prev = some c := by
  simp [lastNonWsEmitted, h]

theorem jsTrim_cons_space (l : List Char) : jsTrim (' ' :: l) = jsTrim l := by
  simp [jsTrim, List.dropWhile_cons, jsWhitespace]

theorem dropWhile_length_le (p : Char → Bool) (l : List Char) :
    (l.dropWhile p).length ≤ l.length := by
  induction l with
  | nil => simp
  | cons a t ih =>
    by_cases h : p a
    · rw [List.dropWhile_cons_of_pos h]
      simp
      omega
    · rw [List.dropWhile_cons_of_neg h]

theorem appendSpace_other (rh : Char) (rt : List Char) (h1 : ¬ rh = '(')
    (h2 : ¬ rh = ',') : appendSpace (rh :: rt) = ' ' :: rh :: rt := by
  simp only [appendSpace]
  split <;> simp_all

theorem jsWhitespace_squote : jsWhitespace '\'' = false := by decide

theorem jsWhitespace_dquote : jsWhitespace '"' = false := by decide

theorem jsWhitespace_btick : jsWhitespace backtickChar = false := by decide

theorem jsWhitespace_space : jsWhitespace ' ' = true := by decide

theorem specMinifyCore_nil (prev : Option Char) : specMinifyCore prev [] = [] := by
  rw [specMinifyCore]

theorem minifyAux_spec_core : ∀ (n : Nat) (l : List Char), l.length ≤ n →
    ∀ (racc : List Char), racc ≠ [] →
    ((racc.head?.all fun c => !jsWhitespace c) = true
      ∨ (l.head?.all fun c => !jsWhitespace c) = true) →
    minifyAux false false false racc false l
      = racc.reverse
          ++ specMinifyCore ((racc.dropWhile jsWhitespace).head?) l := by
  intro n
  induction n with
  | zero =>
    intro l hl racc hne hdisj
    have hl0 : l = [] := by
      cases l with
      | nil => rfl
      | cons a b => simp at hl
    subst hl0
    rw [specMinifyCore]
    simp [minifyAux]
  | succ n ihn =>
    intro l hl racc hne hdisj
    cases l with
    | nil =>
      rw [specMinifyCore]
      simp [minifyAux]
    | cons c rest =>
      by_cases hq1 : (c == '\'') = true
      · have hc : c = '\'' := by simpa using hq1
        subst hc
        cases rest with
        | nil =>
          rw [show minifyAux false false false racc false ['\'']
              = ('\'' :: racc).reverse by simp [minifyAux]]
          rw [specMinifyCore]
          simp [copySingleQuoted, specMinifyCore]
        | cons c2 rest2 =>
        rcases hcs : copySingleQuoted (c2 :: rest2) with ⟨r1, r2⟩
        have hlen2 : r2.length ≤ (c2 :: rest2).length := by
          have hx := copySingleQuoted_len (c2 :: rest2)
          rw [hcs] at hx
          exact hx
        have hstep : minifyAux false false false racc false ('\'' :: c2 :: rest2)
            = minifyAux false false false (r1.reverse ++ '\'' :: racc) false r2 := by
          rw [show minifyAux false false false racc false ('\'' :: c2 :: rest2)
              = minifyAux true false false ('\'' :: racc) false (c2 :: rest2) by
            simp [minifyAux], minifyAux_single_region, hcs]
        have hspec : specMinifyCore ((racc.dropWhile jsWhitespace).head?)
              ('\'' :: c2 :: rest2)
            = ('\'' :: r1)
              ++ specMinifyCore
                  (lastNonWsEmitted ('\'' :: r1)
                    ((racc.dropWhile jsWhitespace).head?)) r2 := by
          rw [specMinifyCore]
          simp [hcs]
        rw [hstep, hspec]
        cases r2 with
        | nil =>
          rw [show minifyAux false false false (r1.reverse ++ '\'' :: racc) false []
              = (r1.reverse ++ '\'' :: racc).reverse from rfl]
          rw [specMinifyCore]
          simp
        | cons d ds =>
          have hclosed := copySingleQuoted_closed (c2 :: rest2)
          rw [hcs] at hclosed
          obtain ⟨pre, hpre⟩ := hclosed (by simp)
          have hpre2 : r1 = pre ++ ['\''] := hpre
          rw [ihn (d :: ds)
            (by simp only [List.length_cons] at hl hlen2 ⊢; omega)
            (r1.reverse ++ '\'' :: racc) (by simp)
            (Or.inl (by simp [hpre2, List.getLast?_concat, jsWhitespace_squote]))]
          have hfw : (((r1.reverse ++ '\'' :: racc).dropWhile jsWhitespace).head?)
              = lastNonWsEmitted ('\'' :: r1)
                  ((racc.dropWhile jsWhitespace).head?) := by
            have hx := firstNonWs_append ('\'' :: r1) racc
            simpa [List.append_assoc] using hx
          rw [hfw]
          simp [List.append_assoc]
      · by_cases hq2 : (c == '"') = true
        · have hc : c = '"' := by simpa using hq2
          subst hc
          cases rest with
          | nil =>
            rw [show minifyAux false false false racc false ['"']
                = ('"' :: racc).reverse by simp [minifyAux]]
            rw [specMinifyCore]
            simp [copyDoubleQuoted, specMinifyCore]
          | cons c2 rest2 =>
          rcases hcs : copyDoubleQuoted (c2 :: rest2) with ⟨r1, r2⟩
          have hlen2 : r2.length ≤ (c2 :: rest2).length := by
            have hx := copyDoubleQuoted_len (c2 :: rest2)
            rw [hcs] at hx
            exact hx
          have hstep : minifyAux false false false racc false ('"' :: c2 :: rest2)
              = minifyAux false false false (r1.reverse ++ '"' :: racc) false r2 := by
            rw [show minifyAux false false false racc false ('"' :: c2 :: rest2)
                = minifyAux false true false ('"' :: racc) false (c2 :: rest2) by
              simp [minifyAux], minifyAux_double_region, hcs]
          have hspec : specMinifyCore ((racc.dropWhile jsWhitespace).head?)
                ('"' :: c2 :: rest2)
              = ('"' :: r1)
                ++ specMinifyCore
                    (lastNonWsEmitted ('"' :: r1)
                      ((racc.dropWhile jsWhitespace).head?)) r2 := by
            rw [specMinifyCore]
            simp [hcs]
          rw [hstep, hspec]
          cases r2 with
          | nil =>
            rw [show minifyAux false false false (r1.reverse ++ '"' :: racc) false []
                = (r1.reverse ++ '"' :: racc).reverse from rfl]
            rw [specMinifyCore]
            simp
          | cons d ds =>
            have hclosed := copyDoubleQuoted_closed (c2 :: rest2)
            rw [hcs] at hclosed
            obtain ⟨pre, hpre⟩ := hclosed (by simp)
            have hpre2 : r1 = pre ++ ['"'] := hpre
            rw [ihn (d :: ds)
              (by simp only [List.length_cons] at hl hlen2 ⊢; omega)
              (r1.reverse ++ '"' :: racc) (by simp)
              (Or.inl (by simp [hpre2, List.getLast?_concat, jsWhitespace_dquote]))]
            have hfw : (((r1.reverse ++ '"' :: racc).dropWhile jsWhitespace).head?)
                = lastNonWsEmitted ('"' :: r1)
                    ((racc.dropWhile jsWhitespace).head?) := by
              have hx := firstNonWs_append ('"' :: r1) racc
              simpa [List.append_assoc] using hx
            rw [hfw]
            simp [List.append_assoc]
        · by_cases hq3 : (c == backtickChar) = true
          · have hc : c = backtickChar := by simpa using hq3
            subst hc
            cases rest with
            | nil =>
              rw [show minifyAux false false false racc false [backtickChar]
                  = (backtickChar :: racc).reverse by
                simp [minifyAux, backtick_ne_squote, backtick_ne_dquote]]
              rw [specMinifyCore]
              simp [copyBacktickQuoted, specMinifyCore,
                backtick_ne_squote, backtick_ne_dquote]
            | cons c2 rest2 =>
            rcases hcs : copyBacktickQuoted (c2 :: rest2) with ⟨r1, r2⟩
            have hlen2 : r2.length ≤ (c2 :: rest2).length := by
              have hx := copyBacktickQuoted_len (c2 :: rest2)
              rw [hcs] at hx
              exact hx
            have hstep : minifyAux false false false racc false (backtickChar :: c2 :: rest2)
                = minifyAux false false false (r1.reverse ++ backtickChar :: racc) false r2 := by
              rw [show minifyAux false false false racc false (backtickChar :: c2 :: rest2)
                  = minifyAux false false true (backtickChar :: racc) false (c2 :: rest2) by
                simp [minifyAux, backtick_ne_squote, backtick_ne_dquote], minifyAux_btick_region, hcs]
            have hspec : specMinifyCore ((racc.dropWhile jsWhitespace).head?)
                  (backtickChar :: c2 :: rest2)
                = (backtickChar :: r1)
                  ++ specMinifyCore
                      (lastNonWsEmitted (backtickChar :: r1)
                        ((racc.dropWhile jsWhitespace).head?)) r2 := by
              rw [specMinifyCore]
              simp [hcs, backtick_ne_squote, backtick_ne_dquote]
            rw [hstep, hspec]
            cases r2 with
            | nil =>
              rw [show minifyAux false false false (r1.reverse ++ backtickChar :: racc) false []
                  = (r1.reverse ++ backtickChar :: racc).reverse from rfl]
              rw [specMinifyCore]
              simp
            | cons d ds =>
              have hclosed := copyBacktickQuoted_closed (c2 :: rest2)
              rw [hcs] at hclosed
              obtain ⟨pre, hpre⟩ := hclosed (by simp)
              have hpre2 : r1 = pre ++ [backtickChar] := hpre
              rw [ihn (d :: ds)
                (by simp only [List.length_cons] at hl hlen2 ⊢; omega)
                (r1.reverse ++ backtickChar :: racc) (by simp)
                (Or.inl (by simp [hpre2, List.getLast?_concat, jsWhitespace_btick]))]
              have hfw : (((r1.reverse ++ backtickChar :: racc).dropWhile jsWhitespace).head?)
                  = lastNonWsEmitted (backtickChar :: r1)
                      ((racc.dropWhile jsWhitespace).head?) := by
                have hx := firstNonWs_append (backtickChar :: r1) racc
                simpa [List.append_assoc] using hx
              rw [hfw]
              simp [List.append_assoc]
          · by_cases hw : jsWhitespace c = true
            · obtain ⟨hnq1, hnq2, hnq3⟩ := ws_not_quote c hw
              have hrh : (racc.head?.all fun c => !jsWhitespace c) = true := by
                rcases hdisj with h | h
                · exact h
                · simp [hw] at h
              obtain ⟨rh, rt, hraccd⟩ : ∃ rh rt, racc = rh :: rt := by
                cases racc with
                | nil => exact absurd rfl hne
                | cons a b => exact ⟨a, b, rfl⟩
              subst hraccd
              simp only [List.head?_cons, Option.all_some,
                Bool.not_eq_true'] at hrh
              have hprev : ((rh :: rt).dropWhile jsWhitespace).head?
                  = some rh := by
                rw [List.dropWhile_cons_of_neg (by simp [hrh])]
                rfl
              cases rest with
              | nil =>
                rw [show minifyAux false false false (rh :: rt) false [c]
                    = (appendSpace (rh :: rt)).reverse by
                  simp [minifyAux, hnq1, hnq2, hnq3, hw]]
                rw [specMinifyCore]
                simp only [hnq1, hnq2, hnq3, hw, hprev]
                by_cases hp1 : rh = '('
                · subst hp1
                  simp [specMinifyCore_nil, appendSpace]
                · by_cases hp2 : rh = ','
                  · subst hp2
                    simp [specMinifyCore_nil, appendSpace]
                  · simp [specMinifyCore_nil,
                      appendSpace_other rh rt hp1 hp2, hp1, hp2]
              | cons c2 rest2 =>
                have hls : ∀ racc2,
                    minifyAux false false false racc2 true (c2 :: rest2)
                      = minifyAux false false false racc2 false
                          ((c2 :: rest2).dropWhile jsWhitespace) := by
                  intro racc2
                  rw [minifyAux_skip_ws, minifyAux_pws_switch]
                  exact head_dropWhile_not_ws (c2 :: rest2)
                have hlen3 :
                    ((c2 :: rest2).dropWhile jsWhitespace).length ≤ n := by
                  have hx := dropWhile_length_le jsWhitespace (c2 :: rest2)
                  simp only [List.length_cons] at hl hx ⊢
                  omega
                rw [show minifyAux false false false (rh :: rt) false
                      (c :: c2 :: rest2)
                    = if (((c2 :: rest2).dropWhile jsWhitespace).head?
                          != some ')'
                        && ((c2 :: rest2).dropWhile jsWhitespace).head?
                          != some ',') = true then
                        minifyAux false false false (appendSpace (rh :: rt))
                          true (c2 :: rest2)
                      else
                        minifyAux false false false (rh :: rt) true
                          (c2 :: rest2) by
                  simp [minifyAux, hnq1, hnq2, hnq3, hw]]
                rw [specMinifyCore]
                simp only [hnq1, hnq2, hnq3, hw, hprev, if_pos, if_neg]
                by_cases hub : ((c2 :: rest2).dropWhile jsWhitespace).head?
                      = some ')'
                    ∨ ((c2 :: rest2).dropWhile jsWhitespace).head? = some ','
                · have hcond : (((c2 :: rest2).dropWhile jsWhitespace).head?
                        != some ')'
                      && ((c2 :: rest2).dropWhile jsWhitespace).head?
                        != some ',') = false := by
                    rcases hub with h | h <;> simp [h]
                  rw [if_neg (by rw [hcond]; exact Bool.false_ne_true)]
                  have hsupp : (some rh == some '(' || some rh == some ','
                      || ((c2 :: rest2).dropWhile jsWhitespace).head?
                        == some ')'
                      || ((c2 :: rest2).dropWhile jsWhitespace).head?
                        == some ',') = true := by
                    rcases hub with h | h <;> simp [h]
                  rw [if_pos hsupp]
                  rw [hls]
                  have hl2ne : (c2 :: rest2).dropWhile jsWhitespace ≠ [] := by
                    rcases hub with h | h <;>
                      (intro hx; rw [hx] at h; simp at h)
                  rw [ihn _ hlen3 (rh :: rt) (by simp)
                    (Or.inr (head_dropWhile_not_ws (c2 :: rest2)))]
                  rw [hprev]
                  simp
                · have hcond : (((c2 :: rest2).dropWhile jsWhitespace).head?
                        != some ')'
                      && ((c2 :: rest2).dropWhile jsWhitespace).head?
                        != some ',') = true := by
                    simp only [Bool.and_eq_true, bne_iff_ne, ne_eq]
                    constructor
                    · intro hx; exact hub (Or.inl hx)
                    · intro hx; exact hub (Or.inr hx)
                  rw [if_pos hcond]
                  by_cases hp1 : rh = '('
                  · subst hp1
                    have hy : ((some '(' : Option Char) == some '('
                        || (some '(' : Option Char) == some ','
                        || ((c2 :: rest2).dropWhile jsWhitespace).head?
                          == some ')'
                        || ((c2 :: rest2).dropWhile jsWhitespace).head?
                          == some ',') = true := by simp
                    rw [if_pos hy]
                    rw [show appendSpace ('(' :: rt) = '(' :: rt from rfl, hls]
                    cases hcl : (c2 :: rest2).dropWhile jsWhitespace with
                    | nil =>
                      rw [specMinifyCore_nil]
                      simp [minifyAux]
                    | cons d ds =>
                      have hx := head_dropWhile_not_ws (c2 :: rest2)
                      rw [hcl] at hx hlen3
                      rw [ihn (d :: ds) hlen3 ('(' :: rt) (by simp)
                        (Or.inr hx)]
                      rw [hprev]
                      simp
                  · by_cases hp2 : rh = ','
                    · subst hp2
                      have hy : ((some ',' : Option Char) == some '('
                          || (some ',' : Option Char) == some ','
                          || ((c2 :: rest2).dropWhile jsWhitespace).head?
                            == some ')'
                          || ((c2 :: rest2).dropWhile jsWhitespace).head?
                            == some ',') = true := by simp
                      rw [if_pos hy]
                      rw [show appendSpace (',' :: rt) = ',' :: rt from rfl, hls]
                      cases hcl : (c2 :: rest2).dropWhile jsWhitespace with
                      | nil =>
                        rw [specMinifyCore_nil]
                        simp [minifyAux]
                      | cons d ds =>
                        have hx := head_dropWhile_not_ws (c2 :: rest2)
                        rw [hcl] at hx hlen3
                        rw [ihn (d :: ds) hlen3 (',' :: rt) (by simp)
                          (Or.inr hx)]
                        rw [hprev]
                        simp
                    · have hnsupp : ¬ ((some rh == some '('
                          || some rh == some ','
                          || ((c2 :: rest2).dropWhile jsWhitespace).head?
                            == some ')'
                          || ((c2 :: rest2).dropWhile jsWhitespace).head?
                            == some ',') = true) := by
                        intro hx
                        simp only [Bool.or_eq_true, beq_iff_eq,
                          Option.some.injEq] at hx
                        rcases hx with ((hx | hx) | hx) | hx
                        · exact hp1 hx
                        · exact hp2 hx
                        · exact hub (Or.inl hx)
                        · exact hub (Or.inr hx)
                      rw [if_neg hnsupp]
                      rw [appendSpace_other rh rt hp1 hp2, hls]
                      cases hcl : (c2 :: rest2).dropWhile jsWhitespace with
                      | nil =>
                        rw [specMinifyCore_nil]
                        simp [minifyAux]
                      | cons d ds =>
                        have hx := head_dropWhile_not_ws (c2 :: rest2)
                        rw [hcl] at hx hlen3
                        rw [ihn (d :: ds) hlen3 (' ' :: rh :: rt) (by simp)
                          (Or.inr hx)]
                        rw [lastNonWsEmitted_space]
                        rw [show ((' ' :: rh :: rt).dropWhile
                              jsWhitespace).head?
                            = ((rh :: rt).dropWhile jsWhitespace).head? by
                          rw [List.dropWhile_cons_of_pos jsWhitespace_space]]
                        rw [hprev]
                        simp
            · cases rest with
              | nil =>
                rw [show minifyAux false false false racc false [c]
                    = (c :: racc).reverse by
                  simp [minifyAux, hq1, hq2, hq3, hw]]
                rw [specMinifyCore]
                simp [hq1, hq2, hq3, hw, specMinifyCore]
              | cons c2 rest2 =>
                have h1 : (c == '\'') = false := by simpa using hq1
                have h2 : (c == '"') = false := by simpa using hq2
                have h3 : (c == backtickChar) = false := by simpa using hq3
                have hw2 : jsWhitespace c = false := by simpa using hw
                rw [show minifyAux false false false racc false
                      (c :: c2 :: rest2)
                    = minifyAux false false false (c :: racc) false
                        (c2 :: rest2) by
                  simp [minifyAux, h1, h2, h3, hw2]]
                rw [ihn (c2 :: rest2)
                  (by simp only [List.length_cons] at hl ⊢; omega)
                  (c :: racc) (by simp) (Or.inl (by simp [hw2]))]
                rw [show ((c :: racc).dropWhile jsWhitespace).head?
                    = some c by
                  rw [List.dropWhile_cons_of_neg (by simp [hw2])]
                  rfl]
                rw [show specMinifyCore ((racc.dropWhile jsWhitespace).head?)
                      (c :: c2 :: rest2)
                    = c :: specMinifyCore (lastNonWsEmitted [c]
                        ((racc.dropWhile jsWhitespace).head?))
                        (c2 :: rest2) by
                  rw [specMinifyCore]
                  simp [h1, h2, h3, hw2]]
                rw [lastNonWsEmitted_nonws c _ hw2]
                simp

theorem minify_spec_top : ∀ (n : Nat) (l : List Char), l.length ≤ n →
    jsTrim (minifyAux false false false [] false l)
      = jsTrim (specMinifyCore none l) := by
  intro n
  induction n with
  | zero =>
    intro l hl
    have hl0 : l = [] := by
      cases l with
      | nil => rfl
      | cons a b => simp at hl
    subst hl0
    rw [specMinifyCore_nil]
    rfl
  | succ n ihn =>
    intro l hl
    cases l with
    | nil =>
      rw [specMinifyCore_nil]
      rfl
    | cons c rest =>
      by_cases hq1 : (c == '\'') = true
      · have hc : c = '\'' := by simpa using hq1
        subst hc
        cases rest with
        | nil =>
          rw [show minifyAux false false false [] false ['\'']
              = ['\''] by simp [minifyAux]]
          rw [specMinifyCore]
          simp [copySingleQuoted, specMinifyCore_nil]
        | cons c2 rest2 =>
        rcases hcs : copySingleQuoted (c2 :: rest2) with ⟨r1, r2⟩
        have hlen2 : r2.length ≤ (c2 :: rest2).length := by
          have hx := copySingleQuoted_len (c2 :: rest2)
          rw [hcs] at hx
          exact hx
        have hstep : minifyAux false false false [] false ('\'' :: c2 :: rest2)
            = minifyAux false false false (r1.reverse ++ ['\'']) false r2 := by
          rw [show minifyAux false false false [] false ('\'' :: c2 :: rest2)
              = minifyAux true false false ['\''] false (c2 :: rest2) by
            simp [minifyAux], minifyAux_single_region, hcs]
        have hspec : specMinifyCore none ('\'' :: c2 :: rest2)
            = ('\'' :: r1)
              ++ specMinifyCore (lastNonWsEmitted ('\'' :: r1) none) r2 := by
          rw [specMinifyCore]
          simp [hcs]
        rw [hstep, hspec]
        cases r2 with
        | nil =>
          rw [show minifyAux false false false (r1.reverse ++ ['\'']) false []
              = (r1.reverse ++ ['\'']).reverse from rfl]
          rw [specMinifyCore_nil]
          simp
        | cons d ds =>
          have hclosed := copySingleQuoted_closed (c2 :: rest2)
          rw [hcs] at hclosed
          obtain ⟨pre, hpre⟩ := hclosed (by simp)
          have hpre2 : r1 = pre ++ ['\''] := hpre
          rw [minifyAux_spec_core n (d :: ds)
            (by simp only [List.length_cons] at hl hlen2 ⊢; omega)
            (r1.reverse ++ ['\'']) (by simp)
            (Or.inl (by simp [hpre2, List.getLast?_concat, jsWhitespace_squote]))]
          have hfw : ((r1.reverse ++ ['\'']).dropWhile jsWhitespace).head?
              = lastNonWsEmitted ('\'' :: r1) none := by
            have hx := firstNonWs_append ('\'' :: r1) []
            simpa using hx
          rw [hfw]
          simp [List.append_assoc]
      · by_cases hq2 : (c == '"') = true
        · have hc : c = '"' := by simpa using hq2
          subst hc
          cases rest with
          | nil =>
            rw [show minifyAux false false false [] false ['"']
                = ['"'] by simp [minifyAux]]
            rw [specMinifyCore]
            simp [copyDoubleQuoted, specMinifyCore_nil]
          | cons c2 rest2 =>
          rcases hcs : copyDoubleQuoted (c2 :: rest2) with ⟨r1, r2⟩
          have hlen2 : r2.length ≤ (c2 :: rest2).length := by
            have hx := copyDoubleQuoted_len (c2 :: rest2)
            rw [hcs] at hx
            exact hx
          have hstep : minifyAux false false false [] false ('"' :: c2 :: rest2)
              = minifyAux false false false (r1.reverse ++ ['"']) false r2 := by
            rw [show minifyAux false false false [] false ('"' :: c2 :: rest2)
                = minifyAux false true false ['"'] false (c2 :: rest2) by
              simp [minifyAux], minifyAux_double_region, hcs]
          have hspec : specMinifyCore none ('"' :: c2 :: rest2)
              = ('"' :: r1)
                ++ specMinifyCore (lastNonWsEmitted ('"' :: r1) none) r2 := by
            rw [specMinifyCore]
            simp [hcs]
          rw [hstep, hspec]
          cases r2 with
          | nil =>
            rw [show minifyAux false false false (r1.reverse ++ ['"']) false []
                = (r1.reverse ++ ['"']).reverse from rfl]
            rw [specMinifyCore_nil]
            simp
          | cons d ds =>
            have hclosed := copyDoubleQuoted_closed (c2 :: rest2)
            rw [hcs] at hclosed
            obtain ⟨pre, hpre⟩ := hclosed (by simp)
            have hpre2 : r1 = pre ++ ['"'] := hpre
            rw [minifyAux_spec_core n (d :: ds)
              (by simp only [List.length_cons] at hl hlen2 ⊢; omega)
              (r1.reverse ++ ['"']) (by simp)
              (Or.inl (by simp [hpre2, List.getLast?_concat, jsWhitespace_dquote]))]
            have hfw : ((r1.reverse ++ ['"']).dropWhile jsWhitespace).head?
                = lastNonWsEmitted ('"' :: r1) none := by
              have hx := firstNonWs_append ('"' :: r1) []
              simpa using hx
            rw [hfw]
            simp [List.append_assoc]
        · by_cases hq3 : (c == backtickChar) = true
          · have hc : c = backtickChar := by simpa using hq3
            subst hc
            cases rest with
            | nil =>
              rw [show minifyAux false false false [] false [backtickChar]
                  = [backtickChar] by
                simp [minifyAux, backtick_ne_squote, backtick_ne_dquote]]
              rw [specMinifyCore]
              simp [copyBacktickQuoted, specMinifyCore_nil,
                backtick_ne_squote, backtick_ne_dquote]
            | cons c2 rest2 =>
            rcases hcs : copyBacktickQuoted (c2 :: rest2) with ⟨r1, r2⟩
            have hlen2 : r2.length ≤ (c2 :: rest2).length := by
              have hx := copyBacktickQuoted_len (c2 :: rest2)
              rw [hcs] at hx
              exact hx
            have hstep : minifyAux false false false [] false (backtickChar :: c2 :: rest2)
                = minifyAux false false false (r1.reverse ++ [backtickChar]) false r2 := by
              rw [show minifyAux false false false [] false (backtickChar :: c2 :: rest2)
                  = minifyAux false false true [backtickChar] false (c2 :: rest2) by
                simp [minifyAux, backtick_ne_squote, backtick_ne_dquote], minifyAux_btick_region, hcs]
            have hspec : specMinifyCore none (backtickChar :: c2 :: rest2)
                = (backtickChar :: r1)
                  ++ specMinifyCore (lastNonWsEmitted (backtickChar :: r1) none) r2 := by
              rw [specMinifyCore]
              simp [hcs, backtick_ne_squote, backtick_ne_dquote]
            rw [hstep, hspec]
            cases r2 with
            | nil =>
              rw [show minifyAux false false false (r1.reverse ++ [backtickChar]) false []
                  = (r1.reverse ++ [backtickChar]).reverse from rfl]
              rw [specMinifyCore_nil]
              simp
            | cons d ds =>
              have hclosed := copyBacktickQuoted_closed (c2 :: rest2)
              rw [hcs] at hclosed
              obtain ⟨pre, hpre⟩ := hclosed (by simp)
              have hpre2 : r1 = pre ++ [backtickChar] := hpre
              rw [minifyAux_spec_core n (d :: ds)
                (by simp only [List.length_cons] at hl hlen2 ⊢; omega)
                (r1.reverse ++ [backtickChar]) (by simp)
                (Or.inl (by simp [hpre2, List.getLast?_concat, jsWhitespace_btick]))]
              have hfw : ((r1.reverse ++ [backtickChar]).dropWhile jsWhitespace).head?
                  = lastNonWsEmitted (backtickChar :: r1) none := by
                have hx := firstNonWs_append (backtickChar :: r1) []
                simpa using hx
              rw [hfw]
              simp [List.append_assoc]
          · by_cases hw : jsWhitespace c = true
            · obtain ⟨hnq1, hnq2, hnq3⟩ := ws_not_quote c hw
              cases rest with
              | nil =>
                rw [show minifyAux false false false [] false [c]
                    = [] by simp [minifyAux, hnq1, hnq2, hnq3, hw, appendSpace]]
                have hcond : ((none : Option Char) == some '('
                    || (none : Option Char) == some ','
                    || ([] : List Char).head? == some ')'
                    || ([] : List Char).head? == some ',') = false := by decide
                have hspec : specMinifyCore none [c] = [' '] := by
                  rw [specMinifyCore]
                  simp [hnq1, hnq2, hnq3, hw, hcond, specMinifyCore_nil,
                    lastNonWsEmitted_space]
                rw [hspec]
                rw [show jsTrim [' '] = ([] : List Char) by decide]
                rfl
              | cons c2 rest2 =>
                rw [show minifyAux false false false [] false (c :: c2 :: rest2)
                    = minifyAux false false false [] true (c2 :: rest2) by
                  simp [minifyAux, hnq1, hnq2, hnq3, hw, appendSpace]]
                rw [minifyAux_skip_ws]
                rw [minifyAux_pws_switch _ _
                  (head_dropWhile_not_ws (c2 :: rest2))]
                have hlen3 :
                    ((c2 :: rest2).dropWhile jsWhitespace).length ≤ n := by
                  have hx := dropWhile_length_le jsWhitespace (c2 :: rest2)
                  simp only [List.length_cons] at hl hx ⊢
                  omega
                by_cases hub : ((c2 :: rest2).dropWhile jsWhitespace).head?
                      = some ')'
                    ∨ ((c2 :: rest2).dropWhile jsWhitespace).head? = some ','
                · have hy : ((none : Option Char) == some '('
                      || (none : Option Char) == some ','
                      || ((c2 :: rest2).dropWhile jsWhitespace).head?
                        == some ')'
                      || ((c2 :: rest2).dropWhile jsWhitespace).head?
                        == some ',') = true := by
                    rcases hub with h | h <;> simp [h]
                  have hspec : specMinifyCore none (c :: c2 :: rest2)
                      = specMinifyCore none
                          ((c2 :: rest2).dropWhile jsWhitespace) := by
                    rw [specMinifyCore]
                    simp [hnq1, hnq2, hnq3, hw, hy]
                    intro g1 g2
                    rcases hub with h | h
                    · exact absurd h g1
                    · exact absurd h g2
                  rw [hspec]
                  exact ihn _ hlen3
                · have ha : ¬ ((c2 :: rest2).dropWhile jsWhitespace).head?
                      = some ')' := fun hx => hub (Or.inl hx)
                  have hb : ¬ ((c2 :: rest2).dropWhile jsWhitespace).head?
                      = some ',' := fun hx => hub (Or.inr hx)
                  have hspec : specMinifyCore none (c :: c2 :: rest2)
                      = ' ' :: specMinifyCore none
                          ((c2 :: rest2).dropWhile jsWhitespace) := by
                    rw [specMinifyCore]
                    simp [hnq1, hnq2, hnq3, hw, ha, hb,
                      lastNonWsEmitted_space]
                  rw [hspec, jsTrim_cons_space]
                  exact ihn _ hlen3
            · have h1 : (c == '\'') = false := by simpa using hq1
              have h2 : (c == '"') = false := by simpa using hq2
              have h3 : (c == backtickChar) = false := by simpa using hq3
              have hw2 : jsWhitespace c = false := by simpa using hw
              cases rest with
              | nil =>
                rw [show minifyAux false false false [] false [c]
                    = [c] by simp [minifyAux, h1, h2, h3, hw2]]
                rw [specMinifyCore]
                simp [h1, h2, h3, hw2, specMinifyCore_nil]
              | cons c2 rest2 =>
                rw [show minifyAux false false false [] false (c :: c2 :: rest2)
                    = minifyAux false false false [c] false (c2 :: rest2) by
                  simp [minifyAux, h1, h2, h3, hw2]]
                rw [minifyAux_spec_core n (c2 :: rest2)
                  (by simp only [List.length_cons] at hl ⊢; omega)
                  [c] (by simp) (Or.inl (by simp [hw2]))]
                rw [show (([c] : List Char).dropWhile jsWhitespace).head?
                    = some c by
                  rw [List.dropWhile_cons_of_neg (by simp [hw2])]
                  rfl]
                rw [show specMinifyCore none (c :: c2 :: rest2)
                    = c :: specMinifyCore (lastNonWsEmitted [c] none)
                        (c2 :: rest2) by
                  rw [specMinifyCore]
                  simp [h1, h2, h3, hw2]]
                rw [lastNonWsEmitted_nonws c _ hw2]
                simp

/-- C8: the minifier makes one pass over the input tracking whether the scan
is inside a single-quoted, double-quoted, or backtick-quoted region; quoted
regions are copied verbatim, runs of whitespace outside quotes collapse to a
single space, that space is suppressed right after an opening parenthesis or
a comma and right before a closing parenthesis or a comma, and the result is
trimmed of leading and trailing whitespace: the code-side minifier agrees
with the spec-side description on every input. -/
theorem c8_minifier_spec_equiv (l : List Char) :
    minifySqlPreserveStrings l = minifySpec l := by
  rw [minifySqlPreserveStrings, minifySpec]
  exact minify_spec_top l.length l le_rfl
